import Mathlib

/-!
Verification of the airport ride-pooling core (pooling.service.js, geo.js,
ride.service.js) via a shallow embedding.

Modelling conventions:
* JavaScript numbers that hold integer quantities (seat counts, luggage
  counts, versions, epoch milliseconds) are embedded as Int; coordinates and
  distances as Rat.
* A MongoDB collection is a list of records; _id is a Nat key field.
  findOneAndUpdate / findByIdAndUpdate are embedded as updateFirstIf, which
  rewrites the first record matching the filter and returns the updated
  document (the code always passes new: true or ignores the result).
* $push appends, $pull removes every matching element, $inc adds.
* A thrown error inside a mongoose transaction aborts it, so an operation
  that fails is embedded as an Except value that carries no state: the
  pre-state is the post-state of a failed call.
* calculateCentroid on an empty list performs 0/0, which in JavaScript is
  NaN; the embedding returns none for that case (some c otherwise).
  calculateBoundingBox on an empty list yields the degenerate
  plus/minus-Infinity box; the embedding returns none for that case.
* The haversine distance calculateDistance is transcendental (floating
  point sin/cos/atan2), so it is embedded as an abstract parameter
  dist : Coord -> Coord -> Rat of the operations that use it.
* Mongo ObjectId generation is embedded as freshPid (one more than the
  largest pool id in the store).
-/

namespace AirportPool

/-- A coordinate pair [lng, lat] (geo.js works on 2-element arrays). -/
abbrev Coord := ℚ × ℚ

/-- Ride.status enum from models/Ride.js. -/
inductive RideStatus where
  | pending
  | pooled
  | cancelled
  | completed
deriving DecidableEq, Repr

/-- Pool.status enum from models/Pool.js (in_progress is spelled inProgress). -/
inductive PoolStatus where
  | forming
  | confirmed
  | inProgress
  | completed
  | cancelled
deriving DecidableEq, Repr

/-- Axis-aligned bounding box, the shape returned by calculateBoundingBox in geo.js. -/
structure BBox where
  minLng : ℚ
  maxLng : ℚ
  minLat : ℚ
  maxLat : ℚ
deriving DecidableEq, Repr

/-- A Ride document (models/Ride.js), restricted to the fields the pooling
core reads or writes: _id (rid), pickup/dropoff coordinates, luggageCount,
status, pool back-reference, estimatedPrice, version, cancelledAt.
Fields the core never touches (passenger, addresses, distanceKm, actualPrice,
requestedAt, completedAt, timestamps) are omitted. -/
structure RideRec where
  rid : Nat
  pickup : Coord
  dropoff : Coord
  luggageCount : ℤ
  status : RideStatus
  pool : Option Nat
  estimatedPrice : Option ℚ
  version : ℤ
  cancelledAt : Option ℤ
deriving DecidableEq, Repr

/-- A Pool document (models/Pool.js), restricted to the fields the pooling
core reads or writes. centroid is none when the stored coordinates are the
NaN pair, boundingBox is none for the degenerate empty-input box. -/
structure PoolRec where
  pid : Nat
  rides : List Nat
  status : PoolStatus
  seatsOccupied : ℤ
  luggageCount : ℤ
  centroid : Option Coord
  boundingBox : Option BBox
  expiresAt : ℤ
  version : ℤ
deriving DecidableEq, Repr

/-- The PoolingService constructor configuration (env-driven, with the
defaults hard-coded in pooling.service.js). -/
structure Config where
  MAX_SEATS : ℤ
  MAX_LUGGAGE : ℤ
  MAX_DETOUR : ℚ
  POOL_EXPIRY_MIN : ℤ
deriving DecidableEq, Repr

/-- The constructor defaults: 4 seats, 6 luggage, 3 km detour, 15 minute TTL. -/
def defaultConfig : Config := ⟨4, 6, 3, 15⟩

/-- The MongoDB store visible to the pooling core: the Pool and Ride collections. -/
structure DbState where
  pools : List PoolRec
  rides : List RideRec
deriving DecidableEq, Repr

/-- Embedding of findOneAndUpdate: rewrite the first element satisfying pred
with f and return it (new: true); return none and the unchanged list when no
element matches. -/
def updateFirstIf {α : Type} (l : List α) (pred : α → Bool) (f : α → α) :
    List α × Option α :=
  match l with
  | [] => ([], none)
  | x :: xs =>
    if pred x then (f x :: xs, some (f x))
    else
      let r := updateFirstIf xs pred f
      (x :: r.1, r.2)

/-- Embedding of findById on the Ride collection. -/
def findRide? (rides : List RideRec) (rid : Nat) : Option RideRec :=
  rides.find? (fun r => decide (r.rid = rid))

/-- Embedding of findById on the Pool collection. -/
def findPool? (pools : List PoolRec) (pid : Nat) : Option PoolRec :=
  pools.find? (fun p => decide (p.pid = pid))

/-- geo.js calculateCentroid: componentwise sum divided by the length.
For the empty list the JavaScript division is 0/0 = NaN on both axes;
that case is embedded as none. -/
def calculateCentroid (coordinates : List Coord) : Option Coord :=
  let n : ℚ := coordinates.length
  let sum := coordinates.foldl (fun acc coord => (acc.1 + coord.1, acc.2 + coord.2)) (0, 0)
  if coordinates.length = 0 then none else some (sum.1 / n, sum.2 / n)

/-- geo.js calculateBoundingBox: min/max of each axis. Math.min of no
arguments is Infinity, so the empty case is the degenerate box, embedded as
none. -/
def calculateBoundingBox (coordinates : List Coord) : Option BBox :=
  match coordinates with
  | [] => none
  | c :: rest =>
    some (rest.foldl
      (fun b p => ⟨min b.minLng p.1, max b.maxLng p.1, min b.minLat p.2, max b.maxLat p.2⟩)
      ⟨c.1, c.1, c.2, c.2⟩)

/-- pooling.service.js _canAddToPool: seat and luggage headroom check
(seatsNeeded is the constant 1, luggageNeeded is ride.luggageCount). -/
def canAddToPool (cfg : Config) (pool : PoolRec) (ride : RideRec) : Bool :=
  decide (pool.seatsOccupied + 1 ≤ cfg.MAX_SEATS) &&
  decide (pool.luggageCount + ride.luggageCount ≤ cfg.MAX_LUGGAGE)

/-- pooling.service.js _calculateSpread: 0 for a single coordinate, else the
running maximum (starting from 0) of dist from the centroid to each
coordinate. When the centroid is the NaN pair (empty input) the JS loop body
never updates maxDistance above its initial 0, matching the none arm. -/
def calculateSpread (dist : Coord → Coord → ℚ) (coordinates : List Coord) : ℚ :=
  if coordinates.length = 1 then 0
  else
    match calculateCentroid coordinates with
    | none => 0
    | some centroid =>
      coordinates.foldl
        (fun maxDistance coord =>
          if dist centroid coord > maxDistance then dist centroid coord else maxDistance)
        0

/-- pooling.service.js _calculatePoolDetour: the member rides of the pool,
fetched by _id $in pool.rides (missing ids contribute nothing). -/
def memberRides (rides : List RideRec) (pool : PoolRec) : List RideRec :=
  pool.rides.filterMap (findRide? rides)

/-- All member pickups plus the new ride's pickup (_calculatePoolDetour's allPickups). -/
def detourPickups (rides : List RideRec) (pool : PoolRec) (newRide : RideRec) : List Coord :=
  (memberRides rides pool).map (fun r => r.pickup) ++ [newRide.pickup]

/-- All member dropoffs plus the new ride's dropoff (_calculatePoolDetour's allDropoffs). -/
def detourDropoffs (rides : List RideRec) (pool : PoolRec) (newRide : RideRec) : List Coord :=
  (memberRides rides pool).map (fun r => r.dropoff) ++ [newRide.dropoff]

/-- pooling.service.js _calculatePoolDetour: mean of the pickup spread and
the dropoff spread. -/
def calculatePoolDetour (dist : Coord → Coord → ℚ) (rides : List RideRec)
    (pool : PoolRec) (newRide : RideRec) : ℚ :=
  (calculateSpread dist (detourPickups rides pool newRide) +
   calculateSpread dist (detourDropoffs rides pool newRide)) / 2

/-- The coordinate list _updatePoolGeometry rebuilds: every member ride's
pickup and dropoff (flatMap). -/
def geometryCoordinates (rides : List RideRec) (pool : PoolRec) : List Coord :=
  (memberRides rides pool).flatMap (fun r => [r.pickup, r.dropoff])

/-- pooling.service.js _updatePoolGeometry: recompute centroid and bounding
box from every member's pickup and dropoff and write them back by pool _id.
Note the write does not touch the version field. -/
def updatePoolGeometry (s : DbState) (pool : PoolRec) : DbState :=
  let allCoordinates := geometryCoordinates s.rides pool
  let centroid := calculateCentroid allCoordinates
  let boundingBox := calculateBoundingBox allCoordinates
  { s with pools := (updateFirstIf s.pools (fun p => decide (p.pid = pool.pid))
      (fun p => { p with centroid := centroid, boundingBox := boundingBox })).1 }

/-- The single error the mutator raises: the conditional join matched zero
documents ("Pool was modified by another request, retry"). -/
inductive MErr where
  | conflict
deriving DecidableEq, Repr

/-- The conditional findOneAndUpdate at the heart of _addRideToPool: filter
on _id, version equality and seat headroom; update pushes the ride id and
increments seats, luggage and version in the one operation. -/
def joinCondUpdate (cfg : Config) (pools : List PoolRec) (pool : PoolRec)
    (ride : RideRec) : List PoolRec × Option PoolRec :=
  updateFirstIf pools
    (fun p => decide (p.pid = pool.pid) && decide (p.version = pool.version) &&
              decide (p.seatsOccupied < cfg.MAX_SEATS))
    (fun p => { p with rides := p.rides ++ [ride.rid],
                       seatsOccupied := p.seatsOccupied + 1,
                       luggageCount := p.luggageCount + ride.luggageCount,
                       version := p.version + 1 })

/-- pooling.service.js _addRideToPool: the conditional pool write; on zero
matches throw (conflict, transaction aborted, no state change); on success
mark the ride pooled (status, pool back-reference, version increment) and
refresh the pool's geometry. Returns the updated pool document as returned
by the conditional write (before the geometry refresh, matching new: true). -/
def addRideToPool (cfg : Config) (s : DbState) (pool : PoolRec) (ride : RideRec) :
    Except MErr (DbState × PoolRec) :=
  let r := joinCondUpdate cfg s.pools pool ride
  match r.2 with
  | none => .error .conflict
  | some updateResult =>
    let rides1 := (updateFirstIf s.rides (fun x => decide (x.rid = ride.rid))
      (fun x => { x with status := .pooled, pool := some pool.pid,
                         version := x.version + 1 })).1
    .ok (updatePoolGeometry { pools := r.1, rides := rides1 } updateResult, updateResult)

/-- Fresh pool _id: one more than the largest id in the store (embeds
ObjectId generation). -/
def freshPid (pools : List PoolRec) : Nat :=
  (pools.map (fun p => p.pid)).foldr max 0 + 1

/-- pooling.service.js _createNewPool: a pool seeded with the single ride
(seats 1, the ride's luggage, centroid at the ride's pickup, schema defaults
status forming and version 0, expiry now plus POOL_EXPIRY_MINUTES), and the
ride marked pooled with its version incremented. Both writes happen in the
one transaction, embedded as the single returned state. Time now is in
epoch milliseconds, so the TTL is POOL_EXPIRY_MIN * 60000. -/
def createNewPool (cfg : Config) (now : ℤ) (s : DbState) (ride : RideRec) :
    DbState × PoolRec :=
  let expiresAt := now + cfg.POOL_EXPIRY_MIN * 60000
  let pool : PoolRec :=
    { pid := freshPid s.pools,
      rides := [ride.rid],
      status := .forming,
      seatsOccupied := 1,
      luggageCount := ride.luggageCount,
      centroid := some ride.pickup,
      boundingBox := calculateBoundingBox [ride.pickup],
      expiresAt := expiresAt,
      version := 0 }
  let rides1 := (updateFirstIf s.rides (fun x => decide (x.rid = ride.rid))
    (fun x => { x with status := .pooled, pool := some pool.pid,
                       version := x.version + 1 })).1
  ({ pools := s.pools ++ [pool], rides := rides1 }, pool)

/-- The greedy scan in findOrCreatePool: fold over the candidate list,
skipping pools that fail _canAddToPool, tracking the candidate whose detour
is within MAX_DETOUR and strictly below the best so far (minDetour starts at
Infinity, so the first qualifying candidate is always adopted). dtr stands
for the detour computation against the current store. -/
def selectBestPool (cfg : Config) (dtr : PoolRec → ℚ) (ride : RideRec)
    (candidatePools : List PoolRec) : Option (PoolRec × ℚ) :=
  candidatePools.foldl
    (fun best pool =>
      if canAddToPool cfg pool ride then
        let detour := dtr pool
        match best with
        | none => if detour ≤ cfg.MAX_DETOUR then some (pool, detour) else none
        | some (bestPool, minDetour) =>
          if detour ≤ cfg.MAX_DETOUR ∧ detour < minDetour then some (pool, detour)
          else some (bestPool, minDetour)
      else best)
    none

/-- pooling.service.js findOrCreatePool. The candidate list is the snapshot
returned by the geospatial query (a parameter here: it may be stale relative
to s by the time the conditional write runs). A qualifying best candidate is
handed to _addRideToPool — whose conflict aborts the transaction and is
rethrown unchanged, with no retry and no fallback — and the code returns the
bestPool snapshot document. With no qualifying candidate a new pool is
created. -/
def findOrCreatePool (cfg : Config) (dist : Coord → Coord → ℚ) (now : ℤ)
    (s : DbState) (candidatePools : List PoolRec) (ride : RideRec) :
    Except MErr (DbState × PoolRec) :=
  match selectBestPool cfg (fun pool => calculatePoolDetour dist s.rides pool ride)
      ride candidatePools with
  | some (bestPool, _) =>
    match addRideToPool cfg s bestPool ride with
    | .ok (s1, _) => .ok (s1, bestPool)
    | .error e => .error e
  | none => .ok (createNewPool cfg now s ride)

/-- Errors cancelRide raises: 'Ride not found' and 'Cannot cancel ride in
current status' (the spec's InvalidState). -/
inductive CErr where
  | notFound
  | invalidState
deriving DecidableEq, Repr

/-- pooling.service.js cancelRide: reject unknown rides and rides already
cancelled or completed (transaction aborted, no state change); otherwise,
when the ride has a pool back-reference, pull the ride id from that pool and
decrement its seats and luggage while incrementing its version (the filter
version: exists true is a tautology, embedded as the plain id match), then
mark the ride cancelled with a cancellation time and a version increment. -/
def cancelRide (now : ℤ) (s : DbState) (rideId : Nat) : Except CErr DbState :=
  match findRide? s.rides rideId with
  | none => .error .notFound
  | some ride =>
    if ride.status = .cancelled ∨ ride.status = .completed then
      .error .invalidState
    else
      let pools1 :=
        match ride.pool with
        | some pid =>
          (updateFirstIf s.pools (fun p => decide (p.pid = pid))
            (fun p => { p with rides := p.rides.filter (fun rid => decide (rid ≠ rideId)),
                               seatsOccupied := p.seatsOccupied - 1,
                               luggageCount := p.luggageCount - ride.luggageCount,
                               version := p.version + 1 })).1
        | none => s.pools
      let rides1 := (updateFirstIf s.rides (fun r => decide (r.rid = rideId))
        (fun r => { r with status := .cancelled, cancelledAt := some now,
                           version := r.version + 1 })).1
      .ok { pools := pools1, rides := rides1 }

/-- ride.service.js createRide price bookkeeping: after pooling, the
estimated price is written onto the ride with a plain findByIdAndUpdate that
does not touch the version field. -/
def recordEstimatedPrice (s : DbState) (rideId : Nat) (price : ℚ) : DbState :=
  { s with rides := (updateFirstIf s.rides (fun r => decide (r.rid = rideId))
      (fun r => { r with estimatedPrice := some price })).1 }

/-- One interleaved core operation against the shared store. intake is the
external request-intake step (ride.service.js createRide inserts a pending
ride before pooling it); matchRide is one findOrCreatePool call, taken with
an arbitrary candidate snapshot (it may be staler than s, which is how a
concurrent writer between the snapshot and the conditional write is
modelled) and guarded by the ride being the current pending record — the
claims' precondition that findOrCreatePool runs exactly once per ride; a
failed findOrCreatePool leaves the store unchanged and so needs no step.
cancelR is one successful cancelRide call. -/
inductive Step (cfg : Config) (dist : Coord → Coord → ℚ) : DbState → DbState → Prop where
  | intake (s : DbState) (r : RideRec)
      (hfresh : findRide? s.rides r.rid = none)
      (hstatus : r.status = .pending)
      (hpool : r.pool = none) :
      Step cfg dist s { s with rides := s.rides ++ [r] }
  | matchRide (s s' : DbState) (now : ℤ) (cands : List PoolRec) (r : RideRec) (p : PoolRec)
      (hr : findRide? s.rides r.rid = some r)
      (hstatus : r.status = .pending)
      (hok : findOrCreatePool cfg dist now s cands r = .ok (s', p)) :
      Step cfg dist s s'
  | cancelR (s s' : DbState) (now : ℤ) (rid : Nat)
      (hok : cancelRide now s rid = .ok s') :
      Step cfg dist s s'

/-- The empty store. -/
def emptyState : DbState := ⟨[], []⟩

/-- States reachable from the empty store by interleaved core operations. -/
def Reachable (cfg : Config) (dist : Coord → Coord → ℚ) (s : DbState) : Prop :=
  Relation.ReflTransGen (Step cfg dist) emptyState s

/-! Generic lemmas about the findOneAndUpdate embedding. -/

theorem updateFirstIf_spec {α : Type} (l : List α) (pred : α → Bool) (f : α → α) :
    (l.find? pred = none ∧ updateFirstIf l pred f = (l, none)) ∨
    ∃ l1 x l2, l = l1 ++ x :: l2 ∧ l1.find? pred = none ∧ pred x = true ∧
      l.find? pred = some x ∧ updateFirstIf l pred f = (l1 ++ f x :: l2, some (f x)) := by
  induction l with
  | nil => exact Or.inl ⟨rfl, rfl⟩
  | cons y ys ih =>
    by_cases hy : pred y = true
    · refine Or.inr ⟨[], y, ys, rfl, rfl, hy, ?_, ?_⟩
      · simp [List.find?, hy]
      · simp [updateFirstIf, hy]
    · have hy' : pred y = false := by simpa using hy
      rcases ih with ⟨hfind, hupd⟩ | ⟨l1, x, l2, heq, hl1, hx, hfind, hupd⟩
      · refine Or.inl ⟨?_, ?_⟩
        · simp [List.find?, hy', hfind]
        · simp [updateFirstIf, hy', hupd]
      · refine Or.inr ⟨y :: l1, x, l2, by simp [heq], ?_, hx, ?_, ?_⟩
        · simp [List.find?, hy', hl1]
        · simp [List.find?, hy', hfind]
        · simp [updateFirstIf, hy', hupd]

theorem find?_append_of_none {α : Type} {l1 : List α} (l2 : List α) {q : α → Bool}
    (h : l1.find? q = none) : (l1 ++ l2).find? q = l2.find? q := by
  induction l1 with
  | nil => rfl
  | cons y ys ih =>
    rw [List.find?_cons] at h
    rw [List.cons_append, List.find?_cons]
    cases hy : q y with
    | true => simp [hy] at h
    | false =>
      simp only [hy] at h ⊢
      exact ih h

theorem find?_append_of_some {α : Type} {l1 : List α} (l2 : List α) {q : α → Bool} {z : α}
    (h : l1.find? q = some z) : (l1 ++ l2).find? q = some z := by
  induction l1 with
  | nil => simp [List.find?] at h
  | cons y ys ih =>
    rw [List.find?_cons] at h
    rw [List.cons_append, List.find?_cons]
    cases hy : q y with
    | true => simpa [hy] using h
    | false =>
      simp only [hy] at h ⊢
      exact ih h

/-- Replacing one element of a list by another on which the search predicate
takes the same value and, when it matches, to which the projection proj gives
the same answer, does not change the projected result of find?. -/
theorem find?_map_proj_replace {α β : Type} (l1 l2 : List α) (x y : α) (q : α → Bool)
    (proj : α → β) (hq : q y = q x) (hproj : q x = true → proj y = proj x) :
    ((l1 ++ y :: l2).find? q).map proj = ((l1 ++ x :: l2).find? q).map proj := by
  cases hfind : l1.find? q with
  | some z =>
    rw [find?_append_of_some _ hfind, find?_append_of_some _ hfind]
  | none =>
    rw [find?_append_of_none _ hfind, find?_append_of_none _ hfind,
      List.find?_cons, List.find?_cons]
    cases hx : q x with
    | true => simp [hq, hx, hproj hx]
    | false => simp [hq, hx]

/-- Replacing one element on which the search predicate is false (before and
after) does not change find? at all. -/
theorem find?_replace_of_false {α : Type} (l1 l2 : List α) (x y : α) (q : α → Bool)
    (hx : q x = false) (hy : q y = false) :
    (l1 ++ y :: l2).find? q = (l1 ++ x :: l2).find? q := by
  cases hfind : l1.find? q with
  | some z =>
    rw [find?_append_of_some _ hfind, find?_append_of_some _ hfind]
  | none =>
    rw [find?_append_of_none _ hfind, find?_append_of_none _ hfind,
      List.find?_cons, List.find?_cons, hx, hy]

/-- Updating the first record with a given key leaves lookups of every other
key unchanged, provided the update preserves the key. -/
theorem find?_key_update_ne {α : Type} (key : α → Nat) (l : List α) (k : Nat) (f : α → α)
    (hf : ∀ x, key (f x) = key x) (k' : Nat) (hne : k' ≠ k) :
    (updateFirstIf l (fun x => decide (key x = k)) f).1.find? (fun x => decide (key x = k'))
      = l.find? (fun x => decide (key x = k')) := by
  rcases updateFirstIf_spec l (fun x => decide (key x = k)) f with
    ⟨_, hupd⟩ | ⟨l1, x, l2, heq, _, hx, _, hupd⟩
  · rw [hupd]
  · rw [hupd]
    have hxk : key x = k := by simpa using hx
    rw [heq]
    refine find?_replace_of_false l1 l2 x (f x) _ ?_ ?_
    · simp only [decide_eq_false_iff_not, hxk]
      exact fun h => hne h.symm
    · simp only [decide_eq_false_iff_not, hf, hxk]
      exact fun h => hne h.symm

/-- Updating the first record with a given key makes the lookup of that key
return the image of what it used to return, provided the update preserves the
key. -/
theorem find?_key_update_self {α : Type} (key : α → Nat) (l : List α) (k : Nat) (f : α → α)
    (hf : ∀ x, key (f x) = key x) :
    (updateFirstIf l (fun x => decide (key x = k)) f).1.find? (fun x => decide (key x = k))
      = (l.find? (fun x => decide (key x = k))).map f := by
  rcases updateFirstIf_spec l (fun x => decide (key x = k)) f with
    ⟨hfind, hupd⟩ | ⟨l1, x, l2, heq, hl1, hx, hfind, hupd⟩
  · rw [hupd, hfind]
    rfl
  · rw [hupd, hfind, find?_append_of_none _ hl1, List.find?_cons]
    have : (fun x => decide (key x = k)) (f x) = true := by
      simpa [hf] using hx
    simp [this]

/-- filterMap agrees on lists where the two functions agree pointwise. -/
theorem filterMap_congr_mem {α β : Type} {l : List α} {f g : α → Option β}
    (h : ∀ x ∈ l, f x = g x) : l.filterMap f = l.filterMap g := by
  induction l with
  | nil => rfl
  | cons y ys ih =>
    rw [List.filterMap_cons, List.filterMap_cons, h y (by simp),
      ih (fun x hx => h x (by simp [hx]))]

/-- Filtering out an absent id changes nothing. -/
theorem filter_ne_of_not_mem (l : List Nat) (rid : Nat) (h : rid ∉ l) :
    l.filter (fun x => decide (x ≠ rid)) = l :=
  List.filter_eq_self.mpr (fun a ha => by
    rw [decide_eq_true_eq]
    exact fun e => h (e ▸ ha))

/-- Pulling a present id out of a duplicate-free id list shortens it by one. -/
theorem filter_length_remove (l : List Nat) (rid : Nat) (hnd : l.Nodup) (hmem : rid ∈ l) :
    ((l.filter (fun x => decide (x ≠ rid))).length : ℤ) = (l.length : ℤ) - 1 := by
  induction l with
  | nil => cases hmem
  | cons a l' ih =>
    rcases List.mem_cons.mp hmem with rfl | hmem'
    · have hnotin : rid ∉ l' := (List.nodup_cons.mp hnd).1
      have hfix := filter_ne_of_not_mem l' rid hnotin
      rw [List.filter_cons]
      simp only [ne_eq, decide_not, decide_True, Bool.not_true, Bool.false_eq_true,
        if_false] at hfix ⊢
      rw [hfix, List.length_cons]
      push_cast
      ring
    · have ha : a ≠ rid := by
        rintro rfl
        exact (List.nodup_cons.mp hnd).1 hmem'
      have ih' := ih (List.nodup_cons.mp hnd).2 hmem'
      rw [List.filter_cons]
      simp only [ha, ne_eq, not_false_iff, decide_True, if_true, List.length_cons]
      simp only [ne_eq] at ih'
      push_cast
      omega

/-- Pulling a present id out of a duplicate-free id list removes exactly its
record's contribution from the member-luggage sum. -/
theorem filterMap_luggage_remove (l : List Nat) (rid : Nat) (F : Nat → Option RideRec)
    (r : RideRec) (hnd : l.Nodup) (hmem : rid ∈ l) (hF : F rid = some r) :
    (((l.filter (fun x => decide (x ≠ rid))).filterMap F).map (fun y => y.luggageCount)).sum
      = ((l.filterMap F).map (fun y => y.luggageCount)).sum - r.luggageCount := by
  induction l with
  | nil => cases hmem
  | cons a l' ih =>
    rcases List.mem_cons.mp hmem with rfl | hmem'
    · have hnotin : rid ∉ l' := (List.nodup_cons.mp hnd).1
      have hfix := filter_ne_of_not_mem l' rid hnotin
      rw [List.filter_cons]
      simp only [ne_eq, decide_not, decide_True, Bool.not_true, Bool.false_eq_true,
        if_false] at hfix ⊢
      rw [hfix, List.filterMap_cons_some hF, List.map_cons, List.sum_cons]
      ring
    · have ha : a ≠ rid := by
        rintro rfl
        exact (List.nodup_cons.mp hnd).1 hmem'
      have ih' := ih (List.nodup_cons.mp hnd).2 hmem'
      rw [List.filter_cons]
      simp only [ha, ne_eq, not_false_iff, decide_True, if_true]
      simp only [ne_eq] at ih'
      cases hFa : F a with
      | none =>
        rw [List.filterMap_cons_none hFa, List.filterMap_cons_none hFa]
        exact ih'
      | some ra =>
        rw [List.filterMap_cons_some hFa, List.filterMap_cons_some hFa,
          List.map_cons, List.sum_cons, List.map_cons, List.sum_cons, ih']
        ring

theorem le_foldr_max (ns : List Nat) : ∀ n ∈ ns, n ≤ ns.foldr max 0 := by
  induction ns with
  | nil => intro n hn; cases hn
  | cons a l ih =>
    intro n hn
    rcases List.mem_cons.mp hn with rfl | hn'
    · exact le_max_left _ _
    · exact le_trans (ih n hn') (le_max_right _ _)

/-- Every pool id in the store is strictly below the fresh id. -/
theorem pid_lt_freshPid (pools : List PoolRec) : ∀ p ∈ pools, p.pid < freshPid pools := by
  intro p hp
  have : p.pid ≤ (pools.map (fun q => q.pid)).foldr max 0 :=
    le_foldr_max _ _ (List.mem_map.mpr ⟨p, hp, rfl⟩)
  simp only [freshPid]
  omega

theorem findRide?_rid {rides : List RideRec} {rid : Nat} {r : RideRec}
    (h : findRide? rides rid = some r) : r.rid = rid := by
  have := List.find?_some h
  simpa using this

theorem findRide?_mem {rides : List RideRec} {rid : Nat} {r : RideRec}
    (h : findRide? rides rid = some r) : r ∈ rides :=
  List.mem_of_find?_eq_some h

theorem findPool?_pid {pools : List PoolRec} {pid : Nat} {p : PoolRec}
    (h : findPool? pools pid = some p) : p.pid = pid := by
  have := List.find?_some h
  simpa using this

theorem findPool?_mem {pools : List PoolRec} {pid : Nat} {p : PoolRec}
    (h : findPool? pools pid = some p) : p ∈ pools :=
  List.mem_of_find?_eq_some h

/-- The per-pool bookkeeping the no-overbooking claim is about: seats equal
the member count, seats within MAX_SEATS, luggage equal to the members'
luggage sum. -/
def poolInvariant (cfg : Config) (rides : List RideRec) (p : PoolRec) : Prop :=
  p.seatsOccupied = (p.rides.length : ℤ) ∧
  p.seatsOccupied ≤ cfg.MAX_SEATS ∧
  p.luggageCount = ((memberRides rides p).map (fun r => r.luggageCount)).sum

/-- The inductive well-formedness invariant of the store: unique pool ids,
duplicate-free member lists, member lists and ride back-references that
agree, pending rides without a pool, and the bookkeeping of every pool. -/
structure WF (cfg : Config) (s : DbState) : Prop where
  pidsNodup : (s.pools.map (fun p => p.pid)).Nodup
  memNodup : ∀ p ∈ s.pools, p.rides.Nodup
  memberBack : ∀ p ∈ s.pools, ∀ rid ∈ p.rides,
    ∃ r, findRide? s.rides rid = some r ∧ r.status = .pooled ∧ r.pool = some p.pid
  pooledMember : ∀ rid r, findRide? s.rides rid = some r → r.status = .pooled →
    ∃ pid p, r.pool = some pid ∧ findPool? s.pools pid = some p ∧ rid ∈ p.rides
  pendingNoPool : ∀ rid r, findRide? s.rides rid = some r → r.status = .pending →
    r.pool = none
  accounting : ∀ p ∈ s.pools, poolInvariant cfg s.rides p

theorem wf_empty (cfg : Config) : WF cfg emptyState := by
  refine ⟨?_, ?_, ?_, ?_, ?_, ?_⟩ <;> simp [emptyState, findRide?, poolInvariant]

theorem findRide?_update_ne (rides : List RideRec) (k : Nat) (f : RideRec → RideRec)
    (hf : ∀ x, (f x).rid = x.rid) (k' : Nat) (hne : k' ≠ k) :
    findRide? (updateFirstIf rides (fun x => decide (x.rid = k)) f).1 k'
      = findRide? rides k' := by
  unfold findRide?
  exact find?_key_update_ne (fun x => x.rid) rides k f hf k' hne

theorem findRide?_update_self (rides : List RideRec) (k : Nat) (f : RideRec → RideRec)
    (hf : ∀ x, (f x).rid = x.rid) :
    findRide? (updateFirstIf rides (fun x => decide (x.rid = k)) f).1 k
      = (findRide? rides k).map f := by
  unfold findRide?
  exact find?_key_update_self (fun x => x.rid) rides k f hf

theorem findPool?_update_ne (pools : List PoolRec) (k : Nat) (f : PoolRec → PoolRec)
    (hf : ∀ x, (f x).pid = x.pid) (k' : Nat) (hne : k' ≠ k) :
    findPool? (updateFirstIf pools (fun x => decide (x.pid = k)) f).1 k'
      = findPool? pools k' := by
  unfold findPool?
  exact find?_key_update_ne (fun x => x.pid) pools k f hf k' hne

theorem findPool?_update_self (pools : List PoolRec) (k : Nat) (f : PoolRec → PoolRec)
    (hf : ∀ x, (f x).pid = x.pid) :
    findPool? (updateFirstIf pools (fun x => decide (x.pid = k)) f).1 k
      = (findPool? pools k).map f := by
  unfold findPool?
  exact find?_key_update_self (fun x => x.pid) pools k f hf

theorem memberRides_congr (rides1 rides2 : List RideRec) (p : PoolRec)
    (h : ∀ rid ∈ p.rides, findRide? rides1 rid = findRide? rides2 rid) :
    memberRides rides1 p = memberRides rides2 p :=
  filterMap_congr_mem h

/-- Appending a record with a fresh key does not disturb other lookups. -/
theorem findRide?_append_of_ne (rides : List RideRec) (r : RideRec) (rid : Nat)
    (hne : rid ≠ r.rid) :
    findRide? (rides ++ [r]) rid = findRide? rides rid := by
  unfold findRide?
  cases h : rides.find? (fun x => decide (x.rid = rid)) with
  | some z => exact find?_append_of_some _ h
  | none =>
    rw [find?_append_of_none _ h, List.find?_cons]
    have : ¬ (r.rid = rid) := fun e => hne e.symm
    simp [this]

theorem findRide?_append_self (rides : List RideRec) (r : RideRec)
    (hfresh : findRide? rides r.rid = none) :
    findRide? (rides ++ [r]) r.rid = some r := by
  unfold findRide? at hfresh ⊢
  rw [find?_append_of_none _ hfresh, List.find?_cons]
  simp

/-- In a pid-Nodup pool list split around x, the prefix contains no pool with
x's id. -/
theorem find?_pid_nodup_middle (l1 l2 : List PoolRec) (x : PoolRec)
    (hnd : ((l1 ++ x :: l2).map (fun p => p.pid)).Nodup) :
    l1.find? (fun p => decide (p.pid = x.pid)) = none := by
  rw [List.find?_eq_none]
  intro z hz
  simp only [decide_eq_true_eq]
  intro hzx
  have h1 : x.pid ∈ (l1.map (fun p => p.pid)) := hzx ▸ List.mem_map.mpr ⟨z, hz, rfl⟩
  have h2 : x.pid ∈ ((x :: l2).map (fun p => p.pid)) := by simp
  rw [List.map_append, List.nodup_append] at hnd
  exact hnd.2.2 h1 h2

/-- A pid-Nodup pool list split around x has no x.pid in the rest either. -/
theorem pid_ne_of_nodup_middle (l1 l2 : List PoolRec) (x : PoolRec)
    (hnd : ((l1 ++ x :: l2).map (fun p => p.pid)).Nodup) :
    ∀ q, q ∈ l1 ∨ q ∈ l2 → q.pid ≠ x.pid := by
  rw [List.map_append, List.map_cons, List.nodup_append] at hnd
  intro q hq hqx
  rcases hq with hq | hq
  · exact hnd.2.2 (List.mem_map.mpr ⟨q, hq, hqx⟩) (by simp)
  · have := (List.nodup_cons.mp hnd.2.1).1
    exact this (hqx ▸ List.mem_map.mpr ⟨q, hq, rfl⟩)

/-- Request intake (ride.service.js createRide inserting a pending ride)
preserves the store invariant. -/
theorem wf_intake (cfg : Config) (s : DbState) (r : RideRec) (hW : WF cfg s)
    (hfresh : findRide? s.rides r.rid = none)
    (hstatus : r.status = .pending) (hpool : r.pool = none) :
    WF cfg { s with rides := s.rides ++ [r] } := by
  have hlook : ∀ rid r', findRide? s.rides rid = some r' →
      findRide? (s.rides ++ [r]) rid = findRide? s.rides rid := by
    intro rid r' h
    refine findRide?_append_of_ne s.rides r rid (fun e => ?_)
    rw [e, hfresh] at h
    cases h
  refine ⟨hW.pidsNodup, hW.memNodup, ?_, ?_, ?_, ?_⟩
  · intro p hp rid hrid
    obtain ⟨r', hfind, hst, hpl⟩ := hW.memberBack p hp rid hrid
    exact ⟨r', (hlook rid r' hfind).trans hfind, hst, hpl⟩
  · intro rid r'' hfind hst
    by_cases hcase : rid = r.rid
    · subst hcase
      rw [findRide?_append_self s.rides r hfresh] at hfind
      cases hfind
      rw [hstatus] at hst
      cases hst
    · rw [findRide?_append_of_ne s.rides r rid hcase] at hfind
      exact hW.pooledMember rid r'' hfind hst
  · intro rid r'' hfind hst
    by_cases hcase : rid = r.rid
    · subst hcase
      rw [findRide?_append_self s.rides r hfresh] at hfind
      cases hfind
      exact hpool
    · rw [findRide?_append_of_ne s.rides r rid hcase] at hfind
      exact hW.pendingNoPool rid r'' hfind hst
  · intro p hp
    obtain ⟨h1, h2, h3⟩ := hW.accounting p hp
    refine ⟨h1, h2, ?_⟩
    rw [h3]
    have : memberRides (s.rides ++ [r]) p = memberRides s.rides p := by
      refine memberRides_congr _ _ p (fun rid hrid => ?_)
      obtain ⟨r', hfind, _, _⟩ := hW.memberBack p hp rid hrid
      exact hlook rid r' hfind
    rw [this]

/-- Rewriting one pool record in place while preserving its pid, member
list, seat count and luggage count preserves the store invariant. -/
theorem wf_pool_field_update (cfg : Config) (s : DbState) (pred : PoolRec → Bool)
    (g : PoolRec → PoolRec)
    (hpid : ∀ p, (g p).pid = p.pid) (hrides : ∀ p, (g p).rides = p.rides)
    (hseats : ∀ p, (g p).seatsOccupied = p.seatsOccupied)
    (hlug : ∀ p, (g p).luggageCount = p.luggageCount)
    (hW : WF cfg s) :
    WF cfg { s with pools := (updateFirstIf s.pools pred g).1 } := by
  rcases updateFirstIf_spec s.pools pred g with
    ⟨_, hupd⟩ | ⟨l1, x, l2, heq, hl1, hx, hfind, hupd⟩
  · rw [hupd]
    exact hW
  · rw [hupd]
    have hmem_new : ∀ q, q ∈ (l1 ++ g x :: l2) → q = g x ∨ q ∈ s.pools := by
      intro q hq
      rw [List.mem_append, List.mem_cons] at hq
      rcases hq with hq | hq | hq
      · exact Or.inr (heq ▸ (by simp [hq]))
      · exact Or.inl hq
      · exact Or.inr (heq ▸ (by simp [hq]))
    have hxmem : x ∈ s.pools := heq ▸ (by simp)
    have hmapeq : (l1 ++ g x :: l2).map (fun p => p.pid)
        = (l1 ++ x :: l2).map (fun p => p.pid) := by
      simp [hpid]
    refine ⟨?_, ?_, ?_, ?_, hW.pendingNoPool, ?_⟩
    · show ((l1 ++ g x :: l2).map (fun p => p.pid)).Nodup
      rw [hmapeq, ← heq]
      exact hW.pidsNodup
    · intro p hp
      rcases hmem_new p hp with rfl | hp'
      · rw [hrides]
        exact hW.memNodup x hxmem
      · exact hW.memNodup p hp'
    · intro p hp rid hrid
      rcases hmem_new p hp with rfl | hp'
      · rw [hrides] at hrid
        obtain ⟨r', h1, h2, h3⟩ := hW.memberBack x hxmem rid hrid
        exact ⟨r', h1, h2, by rw [hpid]; exact h3⟩
      · exact hW.memberBack p hp' rid hrid
    · intro rid r' hfind' hst
      obtain ⟨pid, p, hpl, hfp, hmem⟩ := hW.pooledMember rid r' hfind' hst
      by_cases hcase : pid = x.pid
      · subst hcase
        have hnd' : ((l1 ++ x :: l2).map (fun q => q.pid)).Nodup := heq ▸ hW.pidsNodup
        have hxfirst : findPool? s.pools x.pid = some x := by
          unfold findPool?
          rw [heq, find?_append_of_none _ (find?_pid_nodup_middle l1 l2 x hnd'),
            List.find?_cons]
          simp
        rw [hxfirst] at hfp
        cases hfp
        refine ⟨x.pid, g x, hpl, ?_, by rw [hrides]; exact hmem⟩
        unfold findPool?
        rw [find?_append_of_none _ (find?_pid_nodup_middle l1 l2 x hnd'),
          List.find?_cons]
        simp [hpid]
      · refine ⟨pid, p, hpl, ?_, hmem⟩
        have hx' : decide (x.pid = pid) = false := by
          simp only [decide_eq_false_iff_not]
          exact fun e => hcase e.symm
        have hgx' : decide ((g x).pid = pid) = false := by
          simp only [decide_eq_false_iff_not, hpid]
          exact fun e => hcase e.symm
        unfold findPool? at hfp ⊢
        rw [heq] at hfp
        rw [find?_replace_of_false l1 l2 x (g x) _ hx' hgx']
        exact hfp
    · intro p hp
      rcases hmem_new p hp with rfl | hp'
      · obtain ⟨h1, h2, h3⟩ := hW.accounting x hxmem
        refine ⟨?_, ?_, ?_⟩
        · rw [hseats, hrides]
          exact h1
        · rw [hseats]
          exact h2
        · rw [hlug]
          show x.luggageCount
            = ((memberRides s.rides (g x)).map (fun r => r.luggageCount)).sum
          have : memberRides s.rides (g x) = memberRides s.rides x := by
            unfold memberRides
            rw [hrides]
          rw [this]
          exact h3
      · exact hW.accounting p hp'

/-- The geometry refresh rewrites only centroid and bounding box, so every
component of the store invariant survives it. -/
theorem wf_updatePoolGeometry (cfg : Config) (s : DbState) (pool : PoolRec)
    (hW : WF cfg s) : WF cfg (updatePoolGeometry s pool) :=
  wf_pool_field_update cfg s _ _
    (fun _ => rfl) (fun _ => rfl) (fun _ => rfl) (fun _ => rfl) hW

/-- The ride currently pending under its id is a member of no pool. -/
theorem notmem_of_pending (cfg : Config) (s : DbState) (hW : WF cfg s) (ride : RideRec)
    (hr : findRide? s.rides ride.rid = some ride) (hstatus : ride.status = .pending) :
    ∀ p ∈ s.pools, ride.rid ∉ p.rides := by
  intro p hp hmem
  obtain ⟨r', hfind, hst, _⟩ := hW.memberBack p hp ride.rid hmem
  rw [hr] at hfind
  cases hfind
  rw [hstatus] at hst
  cases hst

/-- A successful conditional join preserves the store invariant. -/
theorem wf_addRideToPool (cfg : Config) (s : DbState) (pool : PoolRec) (ride : RideRec)
    (hW : WF cfg s)
    (hr : findRide? s.rides ride.rid = some ride) (hstatus : ride.status = .pending)
    (s1 : DbState) (u : PoolRec)
    (hok : addRideToPool cfg s pool ride = .ok (s1, u)) : WF cfg s1 := by
  rcases updateFirstIf_spec s.pools
      (fun p => decide (p.pid = pool.pid) && decide (p.version = pool.version) &&
                decide (p.seatsOccupied < cfg.MAX_SEATS))
      (fun p => { p with rides := p.rides ++ [ride.rid],
                         seatsOccupied := p.seatsOccupied + 1,
                         luggageCount := p.luggageCount + ride.luggageCount,
                         version := p.version + 1 }) with
    ⟨_, hupd⟩ | ⟨l1, x, l2, heq, hl1, hx, hfind, hupd⟩
  · simp only [addRideToPool, joinCondUpdate, hupd] at hok
    cases hok
  · simp only [addRideToPool, joinCondUpdate, hupd, Except.ok.injEq, Prod.mk.injEq] at hok
    obtain ⟨hs1, hu⟩ := hok
    subst hs1
    simp only [Bool.and_eq_true, decide_eq_true_eq] at hx
    obtain ⟨⟨hxpid, hxver⟩, hxseats⟩ := hx
    set fr : RideRec → RideRec := fun x =>
      { x with status := .pooled, pool := some pool.pid, version := x.version + 1 } with hfr
    set rides1 : List RideRec :=
      (updateFirstIf s.rides (fun x => decide (x.rid = ride.rid)) fr).1 with hrides1
    set u' : PoolRec :=
      { x with rides := x.rides ++ [ride.rid],
               seatsOccupied := x.seatsOccupied + 1,
               luggageCount := x.luggageCount + ride.luggageCount,
               version := x.version + 1 } with hu'
    have hxmem : x ∈ s.pools := heq ▸ (by simp)
    have hnm := notmem_of_pending cfg s hW ride hr hstatus
    have hnd' : ((l1 ++ x :: l2).map (fun p => p.pid)).Nodup := heq ▸ hW.pidsNodup
    have hlook_ne : ∀ rid, rid ≠ ride.rid → findRide? rides1 rid = findRide? s.rides rid :=
      fun rid hne => findRide?_update_ne s.rides ride.rid fr (fun _ => rfl) rid hne
    have hlook_self : findRide? rides1 ride.rid = some (fr ride) := by
      rw [hrides1, findRide?_update_self s.rides ride.rid fr (fun _ => rfl), hr]
      rfl
    have hlookmem : ∀ p ∈ s.pools, ∀ rid ∈ p.rides,
        findRide? rides1 rid = findRide? s.rides rid := by
      intro p hp rid hrid
      refine hlook_ne rid (fun e => hnm p hp (e ▸ hrid))
    have hmem_new : ∀ q, q ∈ (l1 ++ u' :: l2) → q = u' ∨ q ∈ s.pools := by
      intro q hq
      rw [List.mem_append, List.mem_cons] at hq
      rcases hq with hq | hq | hq
      · exact Or.inr (heq ▸ (by simp [hq]))
      · exact Or.inl hq
      · exact Or.inr (heq ▸ (by simp [hq]))
    have hfindPoolSelf : findPool? (l1 ++ u' :: l2) x.pid = some u' := by
      unfold findPool?
      rw [find?_append_of_none _ (find?_pid_nodup_middle l1 l2 x hnd'), List.find?_cons]
      simp [hu']
    have hfindPoolNe : ∀ pid', pid' ≠ x.pid →
        findPool? (l1 ++ u' :: l2) pid' = findPool? s.pools pid' := by
      intro pid' hne
      have hx' : decide (x.pid = pid') = false := by
        simp only [decide_eq_false_iff_not]
        exact fun e => hne e.symm
      have hgx' : decide (u'.pid = pid') = false := by
        simp only [hu', decide_eq_false_iff_not]
        exact fun e => hne e.symm
      unfold findPool?
      rw [heq, find?_replace_of_false l1 l2 x u' _ hx' hgx']
    have hxfirst : findPool? s.pools x.pid = some x := by
      unfold findPool?
      rw [heq, find?_append_of_none _ (find?_pid_nodup_middle l1 l2 x hnd'),
        List.find?_cons]
      simp
    have hmid : WF cfg ⟨l1 ++ u' :: l2, rides1⟩ := by
      refine ⟨?_, ?_, ?_, ?_, ?_, ?_⟩
      · show ((l1 ++ u' :: l2).map (fun p => p.pid)).Nodup
        have : (l1 ++ u' :: l2).map (fun p => p.pid)
            = (l1 ++ x :: l2).map (fun p => p.pid) := by
          simp [hu']
        rw [this]
        exact hnd'
      · intro p hp
        rcases hmem_new p hp with rfl | hp'
        · show (x.rides ++ [ride.rid]).Nodup
          rw [List.nodup_append]
          refine ⟨hW.memNodup x hxmem, List.nodup_singleton _, ?_⟩
          intro a ha hb
          rw [List.mem_singleton] at hb
          exact hnm x hxmem (hb ▸ ha)
        · exact hW.memNodup p hp'
      · intro p hp rid hrid
        rcases hmem_new p hp with rfl | hp'
        · rcases List.mem_append.mp hrid with hrid' | hrid'
          · obtain ⟨r', h1, h2, h3⟩ := hW.memberBack x hxmem rid hrid'
            refine ⟨r', ?_, h2, h3⟩
            rw [hlook_ne rid (fun e => hnm x hxmem (e ▸ hrid'))]
            exact h1
          · rw [List.mem_singleton] at hrid'
            subst hrid'
            refine ⟨fr ride, hlook_self, rfl, ?_⟩
            show some pool.pid = some u'.pid
            rw [show u'.pid = x.pid from rfl, hxpid]
        · obtain ⟨r', h1, h2, h3⟩ := hW.memberBack p hp' rid hrid
          refine ⟨r', ?_, h2, h3⟩
          rw [hlookmem p hp' rid hrid]
          exact h1
      · intro rid r'' hfind'' hst''
        by_cases hcase : rid = ride.rid
        · subst hcase
          rw [hlook_self] at hfind''
          cases hfind''
          refine ⟨pool.pid, u', rfl, ?_, ?_⟩
          · show findPool? (l1 ++ u' :: l2) pool.pid = some u'
            rw [← hxpid]
            exact hfindPoolSelf
          · show ride.rid ∈ x.rides ++ [ride.rid]
            simp
        · rw [hlook_ne rid hcase] at hfind''
          obtain ⟨pid', p', hpl, hfp, hmem⟩ := hW.pooledMember rid r'' hfind'' hst''
          by_cases hpid' : pid' = x.pid
          · subst hpid'
            rw [hxfirst] at hfp
            cases hfp
            refine ⟨x.pid, u', hpl, hfindPoolSelf, ?_⟩
            show rid ∈ x.rides ++ [ride.rid]
            exact List.mem_append.mpr (Or.inl hmem)
          · refine ⟨pid', p', hpl, ?_, hmem⟩
            rw [hfindPoolNe pid' hpid']
            exact hfp
      · intro rid r'' hfind'' hst''
        by_cases hcase : rid = ride.rid
        · subst hcase
          rw [hlook_self] at hfind''
          cases hfind''
          cases hst''
        · rw [hlook_ne rid hcase] at hfind''
          exact hW.pendingNoPool rid r'' hfind'' hst''
      · intro p hp
        rcases hmem_new p hp with rfl | hp'
        · obtain ⟨h1, h2, h3⟩ := hW.accounting x hxmem
          refine ⟨?_, ?_, ?_⟩
          · show x.seatsOccupied + 1 = ((x.rides ++ [ride.rid]).length : ℤ)
            rw [List.length_append, List.length_singleton, h1]
            push_cast
            ring
          · show x.seatsOccupied + 1 ≤ cfg.MAX_SEATS
            omega
          · show x.luggageCount + ride.luggageCount
              = ((memberRides rides1 u').map (fun r => r.luggageCount)).sum
            have hmr : memberRides rides1 u'
                = memberRides s.rides x ++ [fr ride] := by
              show (x.rides ++ [ride.rid]).filterMap (findRide? rides1) = _
              rw [List.filterMap_append]
              congr 1
              · exact filterMap_congr_mem (fun rid hrid => hlookmem x hxmem rid hrid)
              · rw [List.filterMap_cons_some hlook_self, List.filterMap_nil]
            rw [hmr, List.map_append, List.sum_append, ← h3]
            show x.luggageCount + ride.luggageCount
              = x.luggageCount + ((([fr ride]).map (fun r => r.luggageCount)).sum)
            simp [hfr]
        · obtain ⟨h1, h2, h3⟩ := hW.accounting p hp'
          refine ⟨h1, h2, ?_⟩
          rw [h3, memberRides_congr rides1 s.rides p (hlookmem p hp')]
    exact wf_updatePoolGeometry cfg ⟨l1 ++ u' :: l2, rides1⟩ u' hmid

/-- The create-new-pool path preserves the store invariant (MAX_SEATS must
admit at least one rider for the fresh singleton pool's seat bound). -/
theorem wf_createNewPool (cfg : Config) (now : ℤ) (s : DbState) (ride : RideRec)
    (hM : 1 ≤ cfg.MAX_SEATS) (hW : WF cfg s)
    (hr : findRide? s.rides ride.rid = some ride) (hstatus : ride.status = .pending) :
    WF cfg (createNewPool cfg now s ride).1 := by
  set np : PoolRec :=
    { pid := freshPid s.pools,
      rides := [ride.rid],
      status := .forming,
      seatsOccupied := 1,
      luggageCount := ride.luggageCount,
      centroid := some ride.pickup,
      boundingBox := calculateBoundingBox [ride.pickup],
      expiresAt := now + cfg.POOL_EXPIRY_MIN * 60000,
      version := 0 } with hnp
  set fr : RideRec → RideRec := fun x =>
    { x with status := .pooled, pool := some np.pid, version := x.version + 1 } with hfr
  set rides1 : List RideRec :=
    (updateFirstIf s.rides (fun x => decide (x.rid = ride.rid)) fr).1 with hrides1
  show WF cfg ⟨s.pools ++ [np], rides1⟩
  have hnm := notmem_of_pending cfg s hW ride hr hstatus
  have hfreshpid : ∀ p ∈ s.pools, p.pid ≠ np.pid := by
    intro p hp
    have := pid_lt_freshPid s.pools p hp
    simp only [hnp]
    omega
  have hlook_ne : ∀ rid, rid ≠ ride.rid → findRide? rides1 rid = findRide? s.rides rid :=
    fun rid hne => findRide?_update_ne s.rides ride.rid fr (fun _ => rfl) rid hne
  have hlook_self : findRide? rides1 ride.rid = some (fr ride) := by
    rw [hrides1, findRide?_update_self s.rides ride.rid fr (fun _ => rfl), hr]
    rfl
  have hlookmem : ∀ p ∈ s.pools, ∀ rid ∈ p.rides,
      findRide? rides1 rid = findRide? s.rides rid := by
    intro p hp rid hrid
    exact hlook_ne rid (fun e => hnm p hp (e ▸ hrid))
  have hprefix_none : s.pools.find? (fun p => decide (p.pid = np.pid)) = none := by
    rw [List.find?_eq_none]
    intro q hq
    simp only [decide_eq_true_eq]
    exact hfreshpid q hq
  have hfindPoolSelf : findPool? (s.pools ++ [np]) np.pid = some np := by
    unfold findPool?
    rw [find?_append_of_none _ hprefix_none, List.find?_cons]
    simp
  have hfindPoolNe : ∀ pid', pid' ≠ np.pid →
      findPool? (s.pools ++ [np]) pid' = findPool? s.pools pid' := by
    intro pid' hne
    unfold findPool?
    cases h : s.pools.find? (fun p => decide (p.pid = pid')) with
    | some z => exact find?_append_of_some _ h
    | none =>
      rw [find?_append_of_none _ h, List.find?_cons]
      have : ¬ (np.pid = pid') := fun e => hne e.symm
      simp [this]
  have hmem_new : ∀ q, q ∈ (s.pools ++ [np]) → q = np ∨ q ∈ s.pools := by
    intro q hq
    rcases List.mem_append.mp hq with hq | hq
    · exact Or.inr hq
    · rw [List.mem_singleton] at hq
      exact Or.inl hq
  refine ⟨?_, ?_, ?_, ?_, ?_, ?_⟩
  · show ((s.pools ++ [np]).map (fun p => p.pid)).Nodup
    rw [List.map_append, List.nodup_append]
    refine ⟨hW.pidsNodup, by simp, ?_⟩
    intro a ha hb
    simp only [List.map_cons, List.map_nil, List.mem_singleton] at hb
    obtain ⟨q, hq, hqa⟩ := List.mem_map.mp ha
    exact hfreshpid q hq (hqa.symm ▸ hb ▸ rfl)
  · intro p hp
    rcases hmem_new p hp with rfl | hp'
    · show ([ride.rid] : List Nat).Nodup
      simp
    · exact hW.memNodup p hp'
  · intro p hp rid hrid
    rcases hmem_new p hp with rfl | hp'
    · rw [show np.rides = [ride.rid] from rfl, List.mem_singleton] at hrid
      subst hrid
      exact ⟨fr ride, hlook_self, rfl, rfl⟩
    · obtain ⟨r', h1, h2, h3⟩ := hW.memberBack p hp' rid hrid
      exact ⟨r', (hlookmem p hp' rid hrid).trans h1, h2, h3⟩
  · intro rid r'' hfind'' hst''
    by_cases hcase : rid = ride.rid
    · subst hcase
      rw [hlook_self] at hfind''
      cases hfind''
      refine ⟨np.pid, np, rfl, hfindPoolSelf, by simp [hnp]⟩
    · rw [hlook_ne rid hcase] at hfind''
      obtain ⟨pid', p', hpl, hfp, hmem⟩ := hW.pooledMember rid r'' hfind'' hst''
      refine ⟨pid', p', hpl, ?_, hmem⟩
      have hne : pid' ≠ np.pid := by
        have := findPool?_pid hfp
        exact fun e => hfreshpid p' (findPool?_mem hfp) (this ▸ e ▸ rfl)
      rw [hfindPoolNe pid' hne]
      exact hfp
  · intro rid r'' hfind'' hst''
    by_cases hcase : rid = ride.rid
    · subst hcase
      rw [hlook_self] at hfind''
      cases hfind''
      cases hst''
    · rw [hlook_ne rid hcase] at hfind''
      exact hW.pendingNoPool rid r'' hfind'' hst''
  · intro p hp
    rcases hmem_new p hp with rfl | hp'
    · refine ⟨by simp [hnp], ?_, ?_⟩
      · show (1 : ℤ) ≤ cfg.MAX_SEATS
        exact hM
      · show ride.luggageCount
          = ((memberRides rides1 np).map (fun r => r.luggageCount)).sum
        have : memberRides rides1 np = [fr ride] := by
          show ([ride.rid] : List Nat).filterMap (findRide? rides1) = [fr ride]
          rw [List.filterMap_cons_some hlook_self, List.filterMap_nil]
        rw [this]
        simp [hfr]
    · obtain ⟨h1, h2, h3⟩ := hW.accounting p hp'
      exact ⟨h1, h2, by rw [h3, memberRides_congr rides1 s.rides p (hlookmem p hp')]⟩

/-- A successful cancellation preserves the store invariant. -/
theorem wf_cancelRide (cfg : Config) (now : ℤ) (s : DbState) (rid : Nat) (s' : DbState)
    (hW : WF cfg s) (hok : cancelRide now s rid = .ok s') : WF cfg s' := by
  unfold cancelRide at hok
  split at hok
  · cases hok
  · rename_i ride hr
    split at hok
    · cases hok
    · rename_i hinv
      simp only [Except.ok.injEq] at hok
      subst hok
      have hrr : ride.rid = rid := findRide?_rid hr
      have hstatus2 : ride.status = .pending ∨ ride.status = .pooled := by
        cases hst : ride.status with
        | pending => exact Or.inl rfl
        | pooled => exact Or.inr rfl
        | cancelled => exact (hinv (Or.inl hst)).elim
        | completed => exact (hinv (Or.inr hst)).elim
      set fc : RideRec → RideRec := fun r =>
        { r with status := .cancelled, cancelledAt := some now,
                 version := r.version + 1 } with hfc
      have hlook_ne : ∀ rid', rid' ≠ rid →
          findRide? (updateFirstIf s.rides (fun r => decide (r.rid = rid)) fc).1 rid'
            = findRide? s.rides rid' :=
        fun rid' hne => findRide?_update_ne s.rides rid fc (fun _ => rfl) rid' hne
      have hlook_self :
          findRide? (updateFirstIf s.rides (fun r => decide (r.rid = rid)) fc).1 rid
            = some (fc ride) := by
        rw [findRide?_update_self s.rides rid fc (fun _ => rfl), hr]
        rfl
      cases hpl : ride.pool with
      | none =>
        have hpend : ride.status = .pending := by
          rcases hstatus2 with h | h
          · exact h
          · obtain ⟨pid0, p0, hpl0, _, _⟩ := hW.pooledMember rid ride hr h
            rw [hpl] at hpl0
            cases hpl0
        have hnm : ∀ p ∈ s.pools, rid ∉ p.rides := by
          intro p hp
          have hr' : findRide? s.rides ride.rid = some ride := by
            rw [hrr]
            exact hr
          have := notmem_of_pending cfg s hW ride hr' hpend p hp
          rw [hrr] at this
          exact this
        have hlookmem : ∀ p ∈ s.pools, ∀ rid' ∈ p.rides,
            findRide? (updateFirstIf s.rides (fun r => decide (r.rid = rid)) fc).1 rid'
              = findRide? s.rides rid' := by
          intro p hp rid' hrid'
          exact hlook_ne rid' (fun e => hnm p hp (e ▸ hrid'))
        refine ⟨hW.pidsNodup, hW.memNodup, ?_, ?_, ?_, ?_⟩
        · intro p hp rid' hrid'
          obtain ⟨r', h1, h2, h3⟩ := hW.memberBack p hp rid' hrid'
          exact ⟨r', (hlookmem p hp rid' hrid').trans h1, h2, h3⟩
        · intro rid' r'' hfind'' hst''
          by_cases hcase : rid' = rid
          · subst hcase
            rw [hlook_self] at hfind''
            cases hfind''
            cases hst''
          · rw [hlook_ne rid' hcase] at hfind''
            exact hW.pooledMember rid' r'' hfind'' hst''
        · intro rid' r'' hfind'' hst''
          by_cases hcase : rid' = rid
          · subst hcase
            rw [hlook_self] at hfind''
            cases hfind''
            cases hst''
          · rw [hlook_ne rid' hcase] at hfind''
            exact hW.pendingNoPool rid' r'' hfind'' hst''
        · intro p hp
          obtain ⟨h1, h2, h3⟩ := hW.accounting p hp
          exact ⟨h1, h2, by rw [h3, memberRides_congr _ s.rides p (hlookmem p hp)]⟩
      | some pid =>
        have hpooled : ride.status = .pooled := by
          rcases hstatus2 with h | h
          · have := hW.pendingNoPool rid ride hr h
            rw [hpl] at this
            cases this
          · exact h
        obtain ⟨pid, p0, hpl0, hfp, hmem⟩ := hW.pooledMember rid ride hr hpooled
        rw [hpl] at hpl0
        cases hpl0
        have hp0pid : p0.pid = pid := findPool?_pid hfp
        rcases updateFirstIf_spec s.pools (fun p => decide (p.pid = pid))
            (fun p => { p with rides := p.rides.filter (fun z => decide (z ≠ rid)),
                               seatsOccupied := p.seatsOccupied - 1,
                               luggageCount := p.luggageCount - ride.luggageCount,
                               version := p.version + 1 }) with
          ⟨hfindn, hupd⟩ | ⟨l1, x, l2, heq, hl1, hx, hfind, hupd⟩
        · unfold findPool? at hfp
          rw [hfindn] at hfp
          cases hfp
        · unfold findPool? at hfp
          rw [hfind] at hfp
          cases hfp
          simp only [hupd]
          set gp : PoolRec :=
            { p0 with rides := p0.rides.filter (fun z => decide (z ≠ rid)),
                      seatsOccupied := p0.seatsOccupied - 1,
                      luggageCount := p0.luggageCount - ride.luggageCount,
                      version := p0.version + 1 } with hgp
          have hnd' : ((l1 ++ p0 :: l2).map (fun p => p.pid)).Nodup := heq ▸ hW.pidsNodup
          have hp0mem : p0 ∈ s.pools := heq ▸ (by simp)
          have honly : ∀ q, q ∈ l1 ∨ q ∈ l2 → rid ∉ q.rides := by
            intro q hq hqmem
            have hqs : q ∈ s.pools := by
              rcases hq with hq | hq <;> exact heq ▸ (by simp [hq])
            obtain ⟨r', h1, _, h3⟩ := hW.memberBack q hqs rid hqmem
            rw [hr] at h1
            cases h1
            rw [hpl] at h3
            cases h3
            exact pid_ne_of_nodup_middle l1 l2 p0 hnd' q hq (hp0pid.symm ▸ rfl)
          have hmem_new : ∀ q, q ∈ (l1 ++ gp :: l2) → q = gp ∨ (q ∈ l1 ∨ q ∈ l2) := by
            intro q hq
            rw [List.mem_append, List.mem_cons] at hq
            rcases hq with hq | hq | hq
            · exact Or.inr (Or.inl hq)
            · exact Or.inl hq
            · exact Or.inr (Or.inr hq)
          have hqs_of : ∀ q, (q ∈ l1 ∨ q ∈ l2) → q ∈ s.pools := by
            intro q hq
            rcases hq with hq | hq <;> exact heq ▸ (by simp [hq])
          have hfiltermem : ∀ rid', rid' ∈ p0.rides.filter (fun z => decide (z ≠ rid)) →
              rid' ∈ p0.rides ∧ rid' ≠ rid := by
            intro rid' hrid'
            obtain ⟨h1, h2⟩ := List.mem_filter.mp hrid'
            exact ⟨h1, by simpa using h2⟩
          have hfindPoolSelf : findPool? (l1 ++ gp :: l2) pid = some gp := by
            unfold findPool?
            rw [find?_append_of_none _ hl1, List.find?_cons]
            have : decide (gp.pid = pid) = true := by
              simp [hgp, hp0pid]
            simp [this]
          have hfindPoolNe : ∀ pid', pid' ≠ pid →
              findPool? (l1 ++ gp :: l2) pid' = findPool? s.pools pid' := by
            intro pid' hne
            have hx' : decide (p0.pid = pid') = false := by
              simp only [decide_eq_false_iff_not, hp0pid]
              exact fun e => hne e.symm
            have hgx' : decide (gp.pid = pid') = false := by
              simp only [hgp, decide_eq_false_iff_not, hp0pid]
              exact fun e => hne e.symm
            unfold findPool?
            rw [heq, find?_replace_of_false l1 l2 p0 gp _ hx' hgx']
          refine ⟨?_, ?_, ?_, ?_, ?_, ?_⟩
          · show ((l1 ++ gp :: l2).map (fun p => p.pid)).Nodup
            have : (l1 ++ gp :: l2).map (fun p => p.pid)
                = (l1 ++ p0 :: l2).map (fun p => p.pid) := by
              simp [hgp]
            rw [this]
            exact hnd'
          · intro p hp
            rcases hmem_new p hp with rfl | hp'
            · show (p0.rides.filter (fun z => decide (z ≠ rid))).Nodup
              exact (hW.memNodup p0 hp0mem).filter _
            · exact hW.memNodup p (hqs_of p hp')
          · intro p hp rid' hrid'
            rcases hmem_new p hp with rfl | hp'
            · obtain ⟨hin, hne⟩ := hfiltermem rid' hrid'
              obtain ⟨r', h1, h2, h3⟩ := hW.memberBack p0 hp0mem rid' hin
              exact ⟨r', (hlook_ne rid' hne).trans h1, h2, h3⟩
            · obtain ⟨r', h1, h2, h3⟩ := hW.memberBack p (hqs_of p hp') rid' hrid'
              have hne : rid' ≠ rid := fun e => honly p hp' (e ▸ hrid')
              exact ⟨r', (hlook_ne rid' hne).trans h1, h2, h3⟩
          · intro rid' r'' hfind'' hst''
            by_cases hcase : rid' = rid
            · subst hcase
              rw [hlook_self] at hfind''
              cases hfind''
              cases hst''
            · rw [hlook_ne rid' hcase] at hfind''
              obtain ⟨pid', p', hpl', hfp', hmem'⟩ :=
                hW.pooledMember rid' r'' hfind'' hst''
              by_cases hpp : pid' = pid
              · subst hpp
                unfold findPool? at hfp'
                rw [hfind] at hfp'
                cases hfp'
                refine ⟨pid', gp, hpl', hfindPoolSelf, ?_⟩
                show rid' ∈ p0.rides.filter (fun z => decide (z ≠ rid))
                refine List.mem_filter.mpr ⟨hmem', by simpa using hcase⟩
              · refine ⟨pid', p', hpl', ?_, hmem'⟩
                rw [hfindPoolNe pid' hpp]
                exact hfp'
          · intro rid' r'' hfind'' hst''
            by_cases hcase : rid' = rid
            · subst hcase
              rw [hlook_self] at hfind''
              cases hfind''
              cases hst''
            · rw [hlook_ne rid' hcase] at hfind''
              exact hW.pendingNoPool rid' r'' hfind'' hst''
          · intro p hp
            rcases hmem_new p hp with rfl | hp'
            · obtain ⟨h1, h2, h3⟩ := hW.accounting p0 hp0mem
              have hlen := filter_length_remove p0.rides rid (hW.memNodup p0 hp0mem) hmem
              refine ⟨?_, ?_, ?_⟩
              · show p0.seatsOccupied - 1
                  = ((p0.rides.filter (fun z => decide (z ≠ rid))).length : ℤ)
                rw [hlen, h1]
              · show p0.seatsOccupied - 1 ≤ cfg.MAX_SEATS
                omega
              · show p0.luggageCount - ride.luggageCount
                  = ((memberRides _ gp).map (fun r => r.luggageCount)).sum
                have hcongr : memberRides
                    (updateFirstIf s.rides (fun r => decide (r.rid = rid)) fc).1 gp
                    = (p0.rides.filter (fun z => decide (z ≠ rid))).filterMap
                        (findRide? s.rides) := by
                  show (p0.rides.filter (fun z => decide (z ≠ rid))).filterMap _ = _
                  refine filterMap_congr_mem (fun rid' hrid' => ?_)
                  exact hlook_ne rid' (hfiltermem rid' hrid').2
                rw [hcongr, filterMap_luggage_remove p0.rides rid (findRide? s.rides) ride
                  (hW.memNodup p0 hp0mem) hmem hr]
                have h3' : p0.luggageCount
                    = ((p0.rides.filterMap (findRide? s.rides)).map
                        (fun r => r.luggageCount)).sum := h3
                rw [h3']
            · obtain ⟨h1, h2, h3⟩ := hW.accounting p (hqs_of p hp')
              refine ⟨h1, h2, ?_⟩
              rw [h3]
              refine congrArg _ (congrArg _ (memberRides_congr _ s.rides p ?_)).symm
              intro rid' hrid'
              exact hlook_ne rid' (fun e => honly p hp' (e ▸ hrid'))

/-- Every interleaved core operation preserves the store invariant. -/
theorem wf_step (cfg : Config) (dist : Coord → Coord → ℚ) (hM : 1 ≤ cfg.MAX_SEATS)
    (s s' : DbState) (hW : WF cfg s) (hstep : Step cfg dist s s') : WF cfg s' := by
  cases hstep with
  | intake r hfresh hstatus hpool =>
    exact wf_intake cfg s r hW hfresh hstatus hpool
  | matchRide s2 now cands r p hr hstatus hok =>
    unfold findOrCreatePool at hok
    cases hsel : selectBestPool cfg
        (fun pool => calculatePoolDetour dist s.rides pool r) r cands with
    | none =>
      simp only [hsel] at hok
      rw [Except.ok.injEq] at hok
      have hs : (createNewPool cfg now s r).1 = s' := congrArg Prod.fst hok
      rw [← hs]
      exact wf_createNewPool cfg now s r hM hW hr hstatus
    | some bpd =>
      obtain ⟨bp, d⟩ := bpd
      simp only [hsel] at hok
      cases hadd : addRideToPool cfg s bp r with
      | error e =>
        simp only [hadd] at hok
        cases hok
      | ok sp =>
        obtain ⟨s1, u⟩ := sp
        simp only [hadd, Except.ok.injEq, Prod.mk.injEq] at hok
        obtain ⟨hs, hp⟩ := hok
        rw [← hs]
        exact wf_addRideToPool cfg s bp r hW hr hstatus s1 u hadd
  | cancelR s2 now rid hok =>
    exact wf_cancelRide cfg now s rid s' hW hok

/-- Every state reachable from the empty store satisfies the invariant. -/
theorem wf_reachable (cfg : Config) (dist : Coord → Coord → ℚ) (hM : 1 ≤ cfg.MAX_SEATS)
    (s : DbState) (h : Reachable cfg dist s) : WF cfg s := by
  unfold Reachable at h
  induction h with
  | refl => exact wf_empty cfg
  | tail hsteps hstep ih => exact wf_step cfg dist hM _ _ ih hstep

/-- C1: starting from the empty store, under any interleaving of request
intake, findOrCreatePool (called once per pending ride) and cancellation,
every pool at every reachable instant has seatsOccupied equal to the length
of its member list, seatsOccupied at most MAX_SEATS, and luggageCount equal
to the sum of its member rides' luggage counts. -/
theorem no_overbooking (cfg : Config) (dist : Coord → Coord → ℚ)
    (hM : 1 ≤ cfg.MAX_SEATS) (s : DbState) (h : Reachable cfg dist s) :
    ∀ p ∈ s.pools,
      p.seatsOccupied = (p.rides.length : ℤ) ∧
      p.seatsOccupied ≤ cfg.MAX_SEATS ∧
      p.luggageCount = ((memberRides s.rides p).map (fun r => r.luggageCount)).sum :=
  fun p hp => (wf_reachable cfg dist hM s h).accounting p hp

/-- A degenerate distance function for concrete runs. -/
def distZero : Coord → Coord → ℚ := fun _ _ => 0

/-- A concrete pending ride used by the concrete runs below. -/
def witRide : RideRec :=
  { rid := 1, pickup := (0, 0), dropoff := (1, 1), luggageCount := 2,
    status := .pending, pool := none, estimatedPrice := none, version := 0,
    cancelledAt := none }

/-- The store right after intaking witRide. -/
def witS1 : DbState := ⟨[], [witRide]⟩

/-- The result of pooling witRide against an empty candidate list. -/
def witFres : Except MErr (DbState × PoolRec) :=
  findOrCreatePool defaultConfig distZero 0 witS1 [] witRide

/-- The store after the pooling step. -/
def witS2 : DbState :=
  match witFres with
  | .ok sp => sp.1
  | .error _ => witS1

/-- The pool created by the pooling step. -/
def witPool : PoolRec :=
  match witFres with
  | .ok sp => sp.2
  | .error _ => ⟨0, [], .forming, 0, 0, none, none, 0, 0⟩

theorem no_overbooking_witness :
    witPool.seatsOccupied = (witPool.rides.length : ℤ) ∧
    witPool.seatsOccupied ≤ defaultConfig.MAX_SEATS ∧
    witPool.luggageCount
      = ((memberRides witS2.rides witPool).map (fun r => r.luggageCount)).sum :=
  no_overbooking defaultConfig distZero (by decide) witS2
    (Relation.ReflTransGen.tail
      (Relation.ReflTransGen.single
        (Step.intake emptyState witRide rfl rfl rfl))
      (Step.matchRide witS1 witS2 0 [] witRide witPool rfl rfl rfl))
    witPool (List.mem_cons_self _ _)

/-- Two pools of a pid-Nodup list with x's pid in a split are the find? hit. -/
theorem findPool?_of_middle (l1 l2 : List PoolRec) (x : PoolRec) (pid : Nat)
    (hnd : ((l1 ++ x :: l2).map (fun p => p.pid)).Nodup) (hxpid : x.pid = pid) :
    findPool? (l1 ++ x :: l2) pid = some x := by
  unfold findPool?
  have hpre : l1.find? (fun p => decide (p.pid = pid)) = none := by
    rw [← hxpid]
    exact find?_pid_nodup_middle l1 l2 x hnd
  rw [find?_append_of_none _ hpre, List.find?_cons]
  simp [hxpid]

/-- C2: the conditional join write applies exactly when the stored pool under
the target id still has the version read and seat headroom; on success the
one conditional update appends the ride id and increments seats, luggage and
version; on zero matches the pool collection is returned unchanged and the
conflict error is raised (the embedding's error carries no state because the
surrounding transaction aborts). -/
theorem conditional_join_semantics (cfg : Config) (s : DbState) (pool : PoolRec)
    (ride : RideRec) (hnd : (s.pools.map (fun p => p.pid)).Nodup) :
    ((∀ p0, findPool? s.pools pool.pid = some p0 →
        ¬(p0.version = pool.version ∧ p0.seatsOccupied < cfg.MAX_SEATS)) →
      (joinCondUpdate cfg s.pools pool ride).1 = s.pools ∧
      addRideToPool cfg s pool ride = .error .conflict) ∧
    (∀ s1 u, addRideToPool cfg s pool ride = .ok (s1, u) →
      ∃ p0, findPool? s.pools pool.pid = some p0 ∧
        p0.version = pool.version ∧ p0.seatsOccupied < cfg.MAX_SEATS ∧
        u.rides = p0.rides ++ [ride.rid] ∧
        u.seatsOccupied = p0.seatsOccupied + 1 ∧
        u.luggageCount = p0.luggageCount + ride.luggageCount ∧
        u.version = p0.version + 1) := by
  rcases updateFirstIf_spec s.pools
      (fun p => decide (p.pid = pool.pid) && decide (p.version = pool.version) &&
                decide (p.seatsOccupied < cfg.MAX_SEATS))
      (fun p => { p with rides := p.rides ++ [ride.rid],
                         seatsOccupied := p.seatsOccupied + 1,
                         luggageCount := p.luggageCount + ride.luggageCount,
                         version := p.version + 1 }) with
    ⟨hfindn, hupd⟩ | ⟨l1, x, l2, heq, hl1, hx, hfind, hupd⟩
  · constructor
    · intro _
      constructor
      · show (updateFirstIf s.pools _ _).1 = s.pools
        rw [hupd]
      · simp only [addRideToPool, joinCondUpdate, hupd]
    · intro s1 u hok
      simp only [addRideToPool, joinCondUpdate, hupd] at hok
      cases hok
  · simp only [Bool.and_eq_true, decide_eq_true_eq] at hx
    obtain ⟨⟨hxpid, hxver⟩, hxseats⟩ := hx
    have hfp : findPool? s.pools pool.pid = some x := by
      rw [heq]
      exact findPool?_of_middle l1 l2 x pool.pid (heq ▸ hnd) hxpid
    constructor
    · intro h
      exact ((h x hfp) ⟨hxver, hxseats⟩).elim
    · intro s1 u hok
      simp only [addRideToPool, joinCondUpdate, hupd, Except.ok.injEq, Prod.mk.injEq] at hok
      obtain ⟨_, hu⟩ := hok
      subst hu
      exact ⟨x, hfp, hxver, hxseats, rfl, rfl, rfl, rfl⟩

/-- A concrete empty forming pool with headroom. -/
def c2Pool : PoolRec := ⟨1, [], .forming, 0, 0, some (0, 0), none, 100, 0⟩

/-- A concrete one-pool one-pending-ride store. -/
def c2S : DbState := ⟨[c2Pool], [witRide]⟩

/-- A concrete successful conditional join. -/
def c2Res : Except MErr (DbState × PoolRec) := addRideToPool defaultConfig c2S c2Pool witRide

/-- The store after the concrete join. -/
def c2S1 : DbState :=
  match c2Res with
  | .ok sp => sp.1
  | .error _ => c2S

/-- The pool document returned by the concrete join. -/
def c2U : PoolRec :=
  match c2Res with
  | .ok sp => sp.2
  | .error _ => c2Pool

theorem conditional_join_semantics_witness :
    ∃ p0, findPool? c2S.pools c2Pool.pid = some p0 ∧
      p0.version = c2Pool.version ∧ p0.seatsOccupied < defaultConfig.MAX_SEATS ∧
      c2U.rides = p0.rides ++ [witRide.rid] ∧
      c2U.seatsOccupied = p0.seatsOccupied + 1 ∧
      c2U.luggageCount = p0.luggageCount + witRide.luggageCount ∧
      c2U.version = p0.version + 1 :=
  (conditional_join_semantics defaultConfig c2S c2Pool witRide (by decide)).2 c2S1 c2U rfl

/-- The stored pool a concurrent writer has already bumped to version 2. -/
def c3Stored : PoolRec := ⟨1, [], .forming, 0, 0, some (0, 0), none, 100, 2⟩

/-- The stale candidate snapshot of the same pool still at version 1. -/
def c3Stale : PoolRec := ⟨1, [], .forming, 0, 0, some (0, 0), none, 100, 1⟩

/-- Store for the conflict run. -/
def c3S : DbState := ⟨[c3Stored], [witRide]⟩

/-- The stale candidate's detour in the concrete conflict run is zero. -/
theorem c3Detour : calculatePoolDetour distZero c3S.rides c3Stale witRide = 0 := by
  have h1 : calculateSpread distZero (detourPickups c3S.rides c3Stale witRide) = 0 := rfl
  have h2 : calculateSpread distZero (detourDropoffs c3S.rides c3Stale witRide) = 0 := rfl
  unfold calculatePoolDetour
  rw [h1, h2]
  norm_num

/-- The greedy scan adopts the stale snapshot as winning candidate. -/
theorem c3Select :
    selectBestPool defaultConfig
      (fun pool => calculatePoolDetour distZero c3S.rides pool witRide)
      witRide [c3Stale] = some (c3Stale, 0) := by
  unfold selectBestPool
  rw [List.foldl_cons, List.foldl_nil]
  rw [show canAddToPool defaultConfig c3Stale witRide = true from rfl]
  simp only [if_true, c3Detour]
  norm_num [defaultConfig]

/-- C3 counterexample: with a stale winning candidate, findOrCreatePool
surfaces the very first conflict as an error: it neither retries candidate
selection nor falls back to creating a new pool, contrary to the claim that
a conflicted join is retried up to a budget and then falls back to pool
creation (which would end in an ok result). -/
theorem conflict_retry_cex :
    findOrCreatePool defaultConfig distZero 0 c3S [c3Stale] witRide
      = .error .conflict := by
  unfold findOrCreatePool
  simp only [c3Select]
  rfl

/-- C3 amended: when the greedy scan picks a winning candidate and the
conditional join on it fails, findOrCreatePool aborts its transaction and
propagates that error unchanged — no retry of candidate selection and no
fallback to pool creation happen inside the matcher. (Retry-on-conflict
exists only as the HTTP middleware, and createRide degrades to leaving the
ride pending.) -/
theorem conflict_propagates (cfg : Config) (dist : Coord → Coord → ℚ) (now : ℤ)
    (s : DbState) (cands : List PoolRec) (ride : RideRec) (bp : PoolRec) (d : ℚ)
    (e : MErr)
    (hsel : selectBestPool cfg (fun pool => calculatePoolDetour dist s.rides pool ride)
      ride cands = some (bp, d))
    (hadd : addRideToPool cfg s bp ride = .error e) :
    findOrCreatePool cfg dist now s cands ride = .error e := by
  unfold findOrCreatePool
  simp only [hsel, hadd]

theorem conflict_propagates_witness :
    findOrCreatePool defaultConfig distZero 0 c3S [c3Stale] witRide
      = .error MErr.conflict :=
  conflict_propagates defaultConfig distZero 0 c3S [c3Stale] witRide c3Stale 0
    MErr.conflict c3Select rfl

/-- A candidate that passes canAccept and whose detour is within the bound. -/
def qualifiesFor (cfg : Config) (ride : RideRec) (dtr : PoolRec → ℚ) (q : PoolRec) : Prop :=
  canAddToPool cfg q ride = true ∧ dtr q ≤ cfg.MAX_DETOUR

/-- What the greedy fold's accumulator means about the scanned prefix:
nothing qualified yet, or the accumulator holds the first minimal-detour
qualifying candidate of the prefix. -/
def SelInv (cfg : Config) (ride : RideRec) (dtr : PoolRec → ℚ)
    (seen : List PoolRec) : Option (PoolRec × ℚ) → Prop
  | none => ∀ q ∈ seen, ¬ qualifiesFor cfg ride dtr q
  | some (bp, d) => qualifiesFor cfg ride dtr bp ∧ d = dtr bp ∧
      ∃ l1 l2, seen = l1 ++ bp :: l2 ∧
        (∀ q ∈ l1, qualifiesFor cfg ride dtr q → d < dtr q) ∧
        (∀ q ∈ l2, qualifiesFor cfg ride dtr q → d ≤ dtr q)

/-- The greedy fold's step function, definitionally the lambda inside
selectBestPool. -/
def selStep (cfg : Config) (ride : RideRec) (dtr : PoolRec → ℚ)
    (best : Option (PoolRec × ℚ)) (pool : PoolRec) : Option (PoolRec × ℚ) :=
  if canAddToPool cfg pool ride then
    let detour := dtr pool
    match best with
    | none => if detour ≤ cfg.MAX_DETOUR then some (pool, detour) else none
    | some (bestPool, minDetour) =>
      if detour ≤ cfg.MAX_DETOUR ∧ detour < minDetour then some (pool, detour)
      else some (bestPool, minDetour)
  else best

theorem selInv_step (cfg : Config) (ride : RideRec) (dtr : PoolRec → ℚ)
    (seen : List PoolRec) (acc : Option (PoolRec × ℚ)) (c : PoolRec)
    (h : SelInv cfg ride dtr seen acc) :
    SelInv cfg ride dtr (seen ++ [c]) (selStep cfg ride dtr acc c) := by
  by_cases hca : canAddToPool cfg c ride = true
  · cases acc with
    | none =>
      show SelInv cfg ride dtr (seen ++ [c])
        (if canAddToPool cfg c ride then
          (if dtr c ≤ cfg.MAX_DETOUR then some (c, dtr c) else none) else none)
      rw [if_pos hca]
      by_cases hle : dtr c ≤ cfg.MAX_DETOUR
      · rw [if_pos hle]
        refine ⟨⟨hca, hle⟩, rfl, seen, [], by simp, ?_, by simp⟩
        intro q hq hqual
        exact ((h q hq) hqual).elim
      · rw [if_neg hle]
        intro q hq
        rcases List.mem_append.mp hq with hq' | hq'
        · exact h q hq'
        · rw [List.mem_singleton] at hq'
          subst hq'
          exact fun hqual => hle hqual.2
    | some bpd =>
      obtain ⟨bp, d⟩ := bpd
      show SelInv cfg ride dtr (seen ++ [c])
        (if canAddToPool cfg c ride then
          (if dtr c ≤ cfg.MAX_DETOUR ∧ dtr c < d then some (c, dtr c) else some (bp, d))
        else some (bp, d))
      rw [if_pos hca]
      obtain ⟨hqbp, hd, l1, l2, hseen, h1, h2⟩ := h
      by_cases hcond : dtr c ≤ cfg.MAX_DETOUR ∧ dtr c < d
      · rw [if_pos hcond]
        refine ⟨⟨hca, hcond.1⟩, rfl, seen, [], by simp, ?_, by simp⟩
        intro q hq hqual
        rw [hseen] at hq
        rcases List.mem_append.mp hq with hq' | hq'
        · exact lt_trans hcond.2 (h1 q hq' hqual)
        · rcases List.mem_cons.mp hq' with rfl | hq''
          · rw [← hd]
            exact hcond.2
          · exact lt_of_lt_of_le hcond.2 (h2 q hq'' hqual)
      · rw [if_neg hcond]
        refine ⟨hqbp, hd, l1, l2 ++ [c], by rw [hseen]; simp, h1, ?_⟩
        intro q hq hqual
        rcases List.mem_append.mp hq with hq' | hq'
        · exact h2 q hq' hqual
        · rw [List.mem_singleton] at hq'
          subst hq'
          rcases not_and_or.mp hcond with hbad | hbad
          · exact (hbad hqual.2).elim
          · exact le_of_not_lt hbad
  · cases acc with
    | none =>
      show SelInv cfg ride dtr (seen ++ [c])
        (if canAddToPool cfg c ride then
          (if dtr c ≤ cfg.MAX_DETOUR then some (c, dtr c) else none) else none)
      rw [if_neg hca]
      intro q hq
      rcases List.mem_append.mp hq with hq' | hq'
      · exact h q hq'
      · rw [List.mem_singleton] at hq'
        subst hq'
        exact fun hqual => hca hqual.1
    | some bpd =>
      obtain ⟨bp, d⟩ := bpd
      show SelInv cfg ride dtr (seen ++ [c])
        (if canAddToPool cfg c ride then
          (if dtr c ≤ cfg.MAX_DETOUR ∧ dtr c < d then some (c, dtr c) else some (bp, d))
        else some (bp, d))
      rw [if_neg hca]
      obtain ⟨hqbp, hd, l1, l2, hseen, h1, h2⟩ := h
      refine ⟨hqbp, hd, l1, l2 ++ [c], by rw [hseen]; simp, h1, ?_⟩
      intro q hq hqual
      rcases List.mem_append.mp hq with hq' | hq'
      · exact h2 q hq' hqual
      · rw [List.mem_singleton] at hq'
        subst hq'
        exact (hca hqual.1).elim

theorem selInv_foldl (cfg : Config) (ride : RideRec) (dtr : PoolRec → ℚ) :
    ∀ (cands seen : List PoolRec) (acc : Option (PoolRec × ℚ)),
    SelInv cfg ride dtr seen acc →
    SelInv cfg ride dtr (seen ++ cands)
      (cands.foldl (selStep cfg ride dtr) acc) := by
  intro cands
  induction cands with
  | nil =>
    intro seen acc h
    simpa using h
  | cons c cs ih =>
    intro seen acc h
    rw [List.foldl_cons]
    have := ih (seen ++ [c]) _ (selInv_step cfg ride dtr seen acc c h)
    simpa using this

/-- C4: the greedy scan's outcome over any ordered candidate list: when no
candidate passes canAccept with detour within the bound, nothing is
selected; a selected winner passes canAccept, has detour within the bound
and minimal among all qualifying candidates, and every qualifying candidate
that precedes it in the list order has strictly larger detour (so the first
candidate in order wins detour ties). -/
theorem greedy_selection (cfg : Config) (dist : Coord → Coord → ℚ)
    (rides : List RideRec) (ride : RideRec) (cands : List PoolRec) :
    ((∀ q ∈ cands, ¬(canAddToPool cfg q ride = true ∧
        calculatePoolDetour dist rides q ride ≤ cfg.MAX_DETOUR)) →
      selectBestPool cfg (fun pool => calculatePoolDetour dist rides pool ride)
        ride cands = none) ∧
    (∀ bp d, selectBestPool cfg (fun pool => calculatePoolDetour dist rides pool ride)
        ride cands = some (bp, d) →
      canAddToPool cfg bp ride = true ∧
      calculatePoolDetour dist rides bp ride ≤ cfg.MAX_DETOUR ∧
      d = calculatePoolDetour dist rides bp ride ∧
      (∀ q ∈ cands, canAddToPool cfg q ride = true →
        calculatePoolDetour dist rides q ride ≤ cfg.MAX_DETOUR →
        d ≤ calculatePoolDetour dist rides q ride) ∧
      ∃ l1 l2, cands = l1 ++ bp :: l2 ∧
        (∀ q ∈ l1, canAddToPool cfg q ride = true →
          calculatePoolDetour dist rides q ride ≤ cfg.MAX_DETOUR →
          d < calculatePoolDetour dist rides q ride)) := by
  have hinv := selInv_foldl cfg ride (fun pool => calculatePoolDetour dist rides pool ride)
    cands [] none (by intro q hq; cases hq)
  rw [List.nil_append] at hinv
  have hconn : selectBestPool cfg (fun pool => calculatePoolDetour dist rides pool ride)
      ride cands
      = cands.foldl
          (selStep cfg ride (fun pool => calculatePoolDetour dist rides pool ride))
          none := rfl
  constructor
  · intro hno
    cases hres : selectBestPool cfg
        (fun pool => calculatePoolDetour dist rides pool ride) ride cands with
    | none => rfl
    | some bpd =>
      obtain ⟨bp, d⟩ := bpd
      rw [hconn] at hres
      rw [hres] at hinv
      obtain ⟨hq, _, l1, l2, hseen, _, _⟩ := hinv
      refine ((hno bp ?_) hq).elim
      rw [hseen]
      simp
  · intro bp d hres
    rw [hconn] at hres
    rw [hres] at hinv
    obtain ⟨⟨hq1, hq2⟩, hd, l1, l2, hseen, hbefore, hafter⟩ := hinv
    refine ⟨hq1, hq2, hd, ?_, l1, l2, hseen, ?_⟩
    · intro q hq hc1 hc2
      rw [hseen] at hq
      rcases List.mem_append.mp hq with hq' | hq'
      · exact le_of_lt (hbefore q hq' ⟨hc1, hc2⟩)
      · rcases List.mem_cons.mp hq' with rfl | hq''
        · rw [hd]
        · exact hafter q hq'' ⟨hc1, hc2⟩
    · intro q hq hc1 hc2
      exact hbefore q hq ⟨hc1, hc2⟩

/-- A full pool (no seat headroom) placed first in candidate order. -/
def c4Full : PoolRec := ⟨1, [], .forming, 4, 0, some (0, 0), none, 100, 0⟩

/-- An empty forming pool placed second in candidate order. -/
def c4Ok : PoolRec := ⟨2, [], .forming, 0, 0, some (0, 0), none, 100, 0⟩

/-- Store for the concrete selection run. -/
def c4S : DbState := ⟨[c4Full, c4Ok], [witRide]⟩

theorem c4Detour : calculatePoolDetour distZero c4S.rides c4Ok witRide = 0 := by
  have h1 : calculateSpread distZero (detourPickups c4S.rides c4Ok witRide) = 0 := rfl
  have h2 : calculateSpread distZero (detourDropoffs c4S.rides c4Ok witRide) = 0 := rfl
  unfold calculatePoolDetour
  rw [h1, h2]
  norm_num

theorem c4Select :
    selectBestPool defaultConfig
      (fun pool => calculatePoolDetour distZero c4S.rides pool witRide)
      witRide [c4Full, c4Ok] = some (c4Ok, 0) := by
  unfold selectBestPool
  rw [List.foldl_cons]
  rw [show canAddToPool defaultConfig c4Full witRide = false from rfl]
  simp only [Bool.false_eq_true, if_false]
  rw [List.foldl_cons, List.foldl_nil]
  rw [show canAddToPool defaultConfig c4Ok witRide = true from rfl]
  simp only [if_true, c4Detour]
  norm_num [defaultConfig]

theorem greedy_selection_witness :
    canAddToPool defaultConfig c4Ok witRide = true ∧
    calculatePoolDetour distZero c4S.rides c4Ok witRide ≤ defaultConfig.MAX_DETOUR ∧
    (0 : ℚ) = calculatePoolDetour distZero c4S.rides c4Ok witRide ∧
    (∀ q ∈ [c4Full, c4Ok], canAddToPool defaultConfig q witRide = true →
      calculatePoolDetour distZero c4S.rides q witRide ≤ defaultConfig.MAX_DETOUR →
      (0 : ℚ) ≤ calculatePoolDetour distZero c4S.rides q witRide) ∧
    ∃ l1 l2, [c4Full, c4Ok] = l1 ++ c4Ok :: l2 ∧
      (∀ q ∈ l1, canAddToPool defaultConfig q witRide = true →
        calculatePoolDetour distZero c4S.rides q witRide ≤ defaultConfig.MAX_DETOUR →
        (0 : ℚ) < calculatePoolDetour distZero c4S.rides q witRide) :=
  (greedy_selection defaultConfig distZero c4S.rides witRide [c4Full, c4Ok]).2
    c4Ok 0 c4Select

/-- C5: when no candidate qualifies, findOrCreatePool returns a new pool
whose sole member is the ride, with seats 1, the ride's luggage, centroid at
the ride's pickup, the schema defaults status forming and version 0, and
expiry now plus the configured TTL; the same returned store also carries the
ride marked pooled with the new pool's id and a bumped version — the pool
write and the ride update are one all-or-nothing unit, embedded as the single
returned state (the source wraps both in one mongoose transaction that
commits or aborts together). -/
theorem new_pool_creation (cfg : Config) (dist : Coord → Coord → ℚ) (now : ℤ)
    (s : DbState) (cands : List PoolRec) (ride : RideRec)
    (hsel : selectBestPool cfg (fun pool => calculatePoolDetour dist s.rides pool ride)
      ride cands = none)
    (hr : findRide? s.rides ride.rid = some ride) :
    ∃ s' newPool, findOrCreatePool cfg dist now s cands ride = .ok (s', newPool) ∧
      newPool.rides = [ride.rid] ∧
      newPool.seatsOccupied = 1 ∧
      newPool.luggageCount = ride.luggageCount ∧
      newPool.centroid = some ride.pickup ∧
      newPool.status = .forming ∧
      newPool.expiresAt = now + cfg.POOL_EXPIRY_MIN * 60000 ∧
      newPool.version = 0 ∧
      s'.pools = s.pools ++ [newPool] ∧
      (∃ r', findRide? s'.rides ride.rid = some r' ∧ r'.status = .pooled ∧
        r'.pool = some newPool.pid ∧ r'.version = ride.version + 1) := by
  refine ⟨(createNewPool cfg now s ride).1, (createNewPool cfg now s ride).2,
    ?_, rfl, rfl, rfl, rfl, rfl, rfl, rfl, rfl, ?_⟩
  · unfold findOrCreatePool
    simp only [hsel]
  · have hlook : findRide? (createNewPool cfg now s ride).1.rides ride.rid
        = some { ride with status := .pooled, pool := some (freshPid s.pools),
                           version := ride.version + 1 } := by
      have hself := findRide?_update_self s.rides ride.rid
        (fun x => { x with status := .pooled, pool := some (freshPid s.pools),
                           version := x.version + 1 }) (fun _ => rfl)
      rw [hr] at hself
      exact hself
    exact ⟨_, hlook, rfl, rfl, rfl⟩

theorem new_pool_creation_witness :
    ∃ s' newPool, findOrCreatePool defaultConfig distZero 0 witS1 [] witRide
        = .ok (s', newPool) ∧
      newPool.rides = [witRide.rid] ∧
      newPool.seatsOccupied = 1 ∧
      newPool.luggageCount = witRide.luggageCount ∧
      newPool.centroid = some witRide.pickup ∧
      newPool.status = .forming ∧
      newPool.expiresAt = 0 + defaultConfig.POOL_EXPIRY_MIN * 60000 ∧
      newPool.version = 0 ∧
      s'.pools = witS1.pools ++ [newPool] ∧
      (∃ r', findRide? s'.rides witRide.rid = some r' ∧ r'.status = .pooled ∧
        r'.pool = some newPool.pid ∧ r'.version = witRide.version + 1) :=
  new_pool_creation defaultConfig distZero 0 witS1 [] witRide rfl rfl

/-- First member of the concrete two-ride pool for the cancellation run. -/
def c6r1 : RideRec := ⟨1, (0, 0), (0, 0), 1, .pooled, some 1, none, 1, none⟩

/-- Second member of the concrete two-ride pool. -/
def c6r2 : RideRec := ⟨2, (4, 0), (4, 0), 1, .pooled, some 1, none, 1, none⟩

/-- The concrete pool whose geometry matches its two members. -/
def c6Pool : PoolRec := ⟨1, [1, 2], .forming, 2, 2, some (2, 0), none, 100, 0⟩

/-- Store for the cancellation-geometry run. -/
def c6S : DbState := ⟨[c6Pool], [c6r1, c6r2]⟩

/-- The concrete cancellation of the first member. -/
def c6Res : Except CErr DbState := cancelRide 0 c6S 1

/-- The store after cancelling the first member. -/
def c6S' : DbState :=
  match c6Res with
  | .ok s => s
  | .error _ => c6S

/-- C6 counterexample: cancelling ride 1 out of the pool leaves the pool's
stored centroid at the stale (2, 0) while the centroid recomputed from the
remaining member set is (4, 0): cancelRide performs no geometry refresh, so
the claim that centroid and bounding box are recomputed after every
membership change fails on the removal side. -/
theorem centroid_freshness_cex :
    c6Res = .ok c6S' ∧
    (findPool? c6S'.pools 1).map (fun p => p.centroid) = some (some (2, 0)) ∧
    (findPool? c6S'.pools 1).map
      (fun p => calculateCentroid (geometryCoordinates c6S'.rides p))
      = some (some (4, 0)) := by
  refine ⟨rfl, rfl, ?_⟩
  have hfp : findPool? c6S'.pools 1
      = some ⟨1, [2], .forming, 1, 1, some (2, 0), none, 100, 1⟩ := rfl
  rw [hfp]
  show some (calculateCentroid (geometryCoordinates c6S'.rides
      (⟨1, [2], .forming, 1, 1, some (2, 0), none, 100, 1⟩ : PoolRec)))
    = some (some (4, 0))
  have hco : geometryCoordinates c6S'.rides
      (⟨1, [2], .forming, 1, 1, some (2, 0), none, 100, 1⟩ : PoolRec)
      = [(4, 0), (4, 0)] := rfl
  rw [hco]
  unfold calculateCentroid
  norm_num

/-- C6 amended: the pool's centroid and bounding box are recomputed from the
full updated member set after every successful join (the geometry refresh at
the end of _addRideToPool), but a cancellation leaves every pool's centroid
and bounding box exactly as they were — the geometry goes stale when a ride
is removed. -/
theorem centroid_freshness (cfg : Config) : 
    (∀ (s : DbState) (pool : PoolRec) (ride : RideRec) (s1 : DbState) (u : PoolRec),
      (s.pools.map (fun p => p.pid)).Nodup →
      addRideToPool cfg s pool ride = .ok (s1, u) →
      ∃ p', findPool? s1.pools pool.pid = some p' ∧
        p'.rides = u.rides ∧
        p'.centroid = calculateCentroid (geometryCoordinates s1.rides u) ∧
        p'.boundingBox = calculateBoundingBox (geometryCoordinates s1.rides u)) ∧
    (∀ (now : ℤ) (s : DbState) (rid : Nat) (s' : DbState),
      cancelRide now s rid = .ok s' →
      ∀ pid, ((findPool? s'.pools pid).map (fun p => (p.centroid, p.boundingBox)))
        = ((findPool? s.pools pid).map (fun p => (p.centroid, p.boundingBox)))) := by
  constructor
  · intro s pool ride s1 u hnd hok
    rcases updateFirstIf_spec s.pools
        (fun p => decide (p.pid = pool.pid) && decide (p.version = pool.version) &&
                  decide (p.seatsOccupied < cfg.MAX_SEATS))
        (fun p => { p with rides := p.rides ++ [ride.rid],
                           seatsOccupied := p.seatsOccupied + 1,
                           luggageCount := p.luggageCount + ride.luggageCount,
                           version := p.version + 1 }) with
      ⟨_, hupd⟩ | ⟨l1, x, l2, heq, hl1, hx, hfind, hupd⟩
    · simp only [addRideToPool, joinCondUpdate, hupd] at hok
      cases hok
    · simp only [addRideToPool, joinCondUpdate, hupd, Except.ok.injEq, Prod.mk.injEq] at hok
      obtain ⟨hs1, hu⟩ := hok
      subst hs1
      subst hu
      simp only [Bool.and_eq_true, decide_eq_true_eq] at hx
      obtain ⟨⟨hxpid, _⟩, _⟩ := hx
      set u' : PoolRec :=
        { x with rides := x.rides ++ [ride.rid],
                 seatsOccupied := x.seatsOccupied + 1,
                 luggageCount := x.luggageCount + ride.luggageCount,
                 version := x.version + 1 } with hu'
      set rides1 : List RideRec :=
        (updateFirstIf s.rides (fun y => decide (y.rid = ride.rid))
          (fun y => { y with status := .pooled, pool := some pool.pid,
                             version := y.version + 1 })).1 with hrides1
      have hnd' : ((l1 ++ x :: l2).map (fun p => p.pid)).Nodup := heq ▸ hnd
      have hmid : findPool? (l1 ++ u' :: l2) u'.pid = some u' := by
        unfold findPool?
        rw [show u'.pid = x.pid from rfl,
          find?_append_of_none _ (find?_pid_nodup_middle l1 l2 x hnd'), List.find?_cons]
        simp [hu']
      have hgeo : (updatePoolGeometry ⟨l1 ++ u' :: l2, rides1⟩ u').pools
          = (updateFirstIf (l1 ++ u' :: l2) (fun p => decide (p.pid = u'.pid))
              (fun p => { p with
                centroid := calculateCentroid (geometryCoordinates rides1 u'),
                boundingBox := calculateBoundingBox (geometryCoordinates rides1 u') })).1
          := rfl
      refine ⟨{ u' with
          centroid := calculateCentroid (geometryCoordinates rides1 u'),
          boundingBox := calculateBoundingBox (geometryCoordinates rides1 u') },
        ?_, rfl, rfl, rfl⟩
      show findPool? (updatePoolGeometry ⟨l1 ++ u' :: l2, rides1⟩ u').pools pool.pid
          = _
      rw [hgeo]
      have := findPool?_update_self (l1 ++ u' :: l2) u'.pid
        (fun p => { p with
          centroid := calculateCentroid (geometryCoordinates rides1 u'),
          boundingBox := calculateBoundingBox (geometryCoordinates rides1 u') })
        (fun _ => rfl)
      have hpid2 : u'.pid = pool.pid := by
        show x.pid = pool.pid
        exact hxpid
      rw [← hpid2, this, hmid]
      rfl
  · intro now s rid s' hok pid
    unfold cancelRide at hok
    split at hok
    · cases hok
    · rename_i ride hr
      split at hok
      · cases hok
      · rename_i hinv
        simp only [Except.ok.injEq] at hok
        subst hok
        cases hpl : ride.pool with
        | none => rfl
        | some pid0 =>
          show ((updateFirstIf s.pools (fun p => decide (p.pid = pid0)) _).1.find?
              (fun p => decide (p.pid = pid))).map _ = _
          rcases updateFirstIf_spec s.pools (fun p => decide (p.pid = pid0))
              (fun p => { p with rides := p.rides.filter (fun z => decide (z ≠ rid)),
                                 seatsOccupied := p.seatsOccupied - 1,
                                 luggageCount := p.luggageCount - ride.luggageCount,
                                 version := p.version + 1 }) with
            ⟨_, hupd⟩ | ⟨l1, x, l2, heq, hl1, hx, hfind, hupd⟩
          · rw [hupd]
            rfl
          · rw [hupd]
            show ((l1 ++ _ :: l2).find? (fun p => decide (p.pid = pid))).map _ = _
            rw [heq]
            exact find?_map_proj_replace l1 l2 x _ _ _ rfl (fun _ => rfl)

theorem centroid_freshness_witness :
    ((findPool? c6S'.pools 1).map (fun p => (p.centroid, p.boundingBox)))
      = ((findPool? c6S.pools 1).map (fun p => (p.centroid, p.boundingBox))) :=
  (centroid_freshness defaultConfig).2 0 c6S 1 c6S' rfl 1

/-- A pool at version 5 whose stored centroid is stale. -/
def c7Pool : PoolRec := ⟨1, [2], .forming, 1, 1, some (0, 0), none, 100, 5⟩

/-- Store for the version-policy runs. -/
def c7S : DbState := ⟨[c7Pool], [c6r2]⟩

/-- A geometry refresh of the concrete pool. -/
def c7G : DbState := updatePoolGeometry c7S c7Pool

/-- A price bookkeeping write on the concrete ride. -/
def c7P : DbState := recordEstimatedPrice c7S 2 10

/-- C7 counterexample: the geometry refresh rewrites the pool's centroid
(from (0,0) to (4,0)) without touching its version (still 5), and the
estimated-price write rewrites the ride's estimatedPrice (none to 10)
without touching its version (still 1) — so not every mutation increments
the version field. -/
theorem version_monotonic_cex :
    (findPool? c7G.pools 1).map (fun p => p.version) = some 5 ∧
    c7Pool.centroid = some (0, 0) ∧
    (findPool? c7G.pools 1).map (fun p => p.centroid) = some (some (4, 0)) ∧
    (findRide? c7P.rides 2).map (fun r => r.version) = some 1 ∧
    c6r2.estimatedPrice = none ∧
    (findRide? c7P.rides 2).map (fun r => r.estimatedPrice) = some (some 10) := by
  refine ⟨rfl, rfl, ?_, rfl, rfl, rfl⟩
  have hfp : findPool? c7G.pools 1
      = some { c7Pool with
          centroid := calculateCentroid (geometryCoordinates c7S.rides c7Pool),
          boundingBox := calculateBoundingBox (geometryCoordinates c7S.rides c7Pool) }
      := rfl
  rw [hfp]
  show some (calculateCentroid (geometryCoordinates c7S.rides c7Pool))
    = some (some (4, 0))
  have hco : geometryCoordinates c7S.rides c7Pool = [(4, 0), (4, 0)] := rfl
  rw [hco]
  unfold calculateCentroid
  norm_num

/-- C7 amended: the join's conditional pool write, the ride updates of the
join and create paths, and the cancellation writes all increment the version
of the records they modify, but the geometry-refresh pool write and the
estimated-price ride write leave every version unchanged. -/
theorem version_policy :
    (∀ (s : DbState) (pool : PoolRec) (pid : Nat),
      ((findPool? (updatePoolGeometry s pool).pools pid).map (fun p => p.version))
        = ((findPool? s.pools pid).map (fun p => p.version))) ∧
    (∀ (s : DbState) (rid : Nat) (price : ℚ) (rid' : Nat),
      ((findRide? (recordEstimatedPrice s rid price).rides rid').map (fun r => r.version))
        = ((findRide? s.rides rid').map (fun r => r.version))) ∧
    (∀ (cfg : Config) (s : DbState) (pool : PoolRec) (ride : RideRec)
        (s1 : DbState) (u : PoolRec),
      addRideToPool cfg s pool ride = .ok (s1, u) →
      u.version = pool.version + 1 ∧
      ∀ r0, findRide? s.rides ride.rid = some r0 →
        ∃ r1, findRide? s1.rides ride.rid = some r1 ∧ r1.version = r0.version + 1) ∧
    (∀ (cfg : Config) (now : ℤ) (s : DbState) (ride r0 : RideRec),
      findRide? s.rides ride.rid = some r0 →
      (createNewPool cfg now s ride).2.version = 0 ∧
      ∃ r1, findRide? (createNewPool cfg now s ride).1.rides ride.rid = some r1 ∧
        r1.version = r0.version + 1) ∧
    (∀ (now : ℤ) (s : DbState) (rid : Nat) (s' : DbState) (r0 : RideRec),
      cancelRide now s rid = .ok s' → findRide? s.rides rid = some r0 →
      (∃ r1, findRide? s'.rides rid = some r1 ∧ r1.version = r0.version + 1) ∧
      (∀ pid p0, r0.pool = some pid → findPool? s.pools pid = some p0 →
        ∃ p1, findPool? s'.pools pid = some p1 ∧ p1.version = p0.version + 1)) := by
  refine ⟨?_, ?_, ?_, ?_, ?_⟩
  · intro s pool pid
    show ((updateFirstIf s.pools (fun p => decide (p.pid = pool.pid))
        (fun p => { p with
          centroid := calculateCentroid (geometryCoordinates s.rides pool),
          boundingBox := calculateBoundingBox (geometryCoordinates s.rides pool) })).1.find?
          (fun p => decide (p.pid = pid))).map (fun p => p.version)
      = ((s.pools.find? (fun p => decide (p.pid = pid))).map (fun p => p.version))
    rcases updateFirstIf_spec s.pools (fun p => decide (p.pid = pool.pid))
        (fun p => { p with
          centroid := calculateCentroid (geometryCoordinates s.rides pool),
          boundingBox := calculateBoundingBox (geometryCoordinates s.rides pool) }) with
      ⟨_, hupd⟩ | ⟨l1, x, l2, heq, hl1, hx, hfind, hupd⟩
    · rw [hupd]
    · rw [hupd, heq]
      exact find?_map_proj_replace l1 l2 x _ _ _ rfl (fun _ => rfl)
  · intro s rid price rid'
    show ((updateFirstIf s.rides (fun r => decide (r.rid = rid))
        (fun r => { r with estimatedPrice := some price })).1.find?
          (fun r => decide (r.rid = rid'))).map (fun r => r.version)
      = ((s.rides.find? (fun r => decide (r.rid = rid'))).map (fun r => r.version))
    rcases updateFirstIf_spec s.rides (fun r => decide (r.rid = rid))
        (fun r => { r with estimatedPrice := some price }) with
      ⟨_, hupd⟩ | ⟨l1, x, l2, heq, hl1, hx, hfind, hupd⟩
    · rw [hupd]
    · rw [hupd, heq]
      exact find?_map_proj_replace l1 l2 x _ _ _ rfl (fun _ => rfl)
  · intro cfg s pool ride s1 u hok
    rcases updateFirstIf_spec s.pools
        (fun p => decide (p.pid = pool.pid) && decide (p.version = pool.version) &&
                  decide (p.seatsOccupied < cfg.MAX_SEATS))
        (fun p => { p with rides := p.rides ++ [ride.rid],
                           seatsOccupied := p.seatsOccupied + 1,
                           luggageCount := p.luggageCount + ride.luggageCount,
                           version := p.version + 1 }) with
      ⟨_, hupd⟩ | ⟨l1, x, l2, heq, hl1, hx, hfind, hupd⟩
    · simp only [addRideToPool, joinCondUpdate, hupd] at hok
      cases hok
    · simp only [addRideToPool, joinCondUpdate, hupd, Except.ok.injEq, Prod.mk.injEq] at hok
      obtain ⟨hs1, hu⟩ := hok
      subst hs1
      subst hu
      simp only [Bool.and_eq_true, decide_eq_true_eq] at hx
      obtain ⟨⟨hxpid, hxver⟩, _⟩ := hx
      constructor
      · show x.version + 1 = pool.version + 1
        rw [hxver]
      · intro r0 hr0
        have hself := findRide?_update_self s.rides ride.rid
          (fun y => { y with status := .pooled, pool := some pool.pid,
                             version := y.version + 1 }) (fun _ => rfl)
        rw [hr0] at hself
        exact ⟨_, hself, rfl⟩
  · intro cfg now s ride r0 hr0
    refine ⟨rfl, ?_⟩
    have hself := findRide?_update_self s.rides ride.rid
      (fun y => { y with status := .pooled, pool := some (freshPid s.pools),
                         version := y.version + 1 }) (fun _ => rfl)
    rw [hr0] at hself
    exact ⟨_, hself, rfl⟩
  · intro now s rid s' r0 hok hr0
    unfold cancelRide at hok
    split at hok
    · cases hok
    · rename_i ride hr
      split at hok
      · cases hok
      · rename_i hinv
        simp only [Except.ok.injEq] at hok
        subst hok
        rw [hr] at hr0
        cases hr0
        constructor
        · have hself := findRide?_update_self s.rides rid
            (fun r => { r with status := .cancelled, cancelledAt := some now,
                               version := r.version + 1 }) (fun _ => rfl)
          rw [hr] at hself
          exact ⟨_, hself, rfl⟩
        · intro pid p0 hpl hfp
          simp only [hpl]
          rcases updateFirstIf_spec s.pools (fun p => decide (p.pid = pid))
              (fun p => { p with rides := p.rides.filter (fun z => decide (z ≠ rid)),
                                 seatsOccupied := p.seatsOccupied - 1,
                                 luggageCount := p.luggageCount - r0.luggageCount,
                                 version := p.version + 1 }) with
            ⟨hfindn, hupd⟩ | ⟨l1, x, l2, heq, hl1, hx, hfind, hupd⟩
          · unfold findPool? at hfp
            rw [hfindn] at hfp
            cases hfp
          · unfold findPool? at hfp
            rw [hfind] at hfp
            cases hfp
            rw [hupd]
            refine ⟨{ p0 with rides := p0.rides.filter (fun z => decide (z ≠ rid)),
                              seatsOccupied := p0.seatsOccupied - 1,
                              luggageCount := p0.luggageCount - r0.luggageCount,
                              version := p0.version + 1 }, ?_, rfl⟩
            unfold findPool?
            rw [find?_append_of_none _ hl1, List.find?_cons]
            have hx' : p0.pid = pid := by simpa using hx
            have : decide (({ p0 with
                rides := p0.rides.filter (fun z => decide (z ≠ rid)),
                seatsOccupied := p0.seatsOccupied - 1,
                luggageCount := p0.luggageCount - r0.luggageCount,
                version := p0.version + 1 } : PoolRec).pid = pid) = true := by
              simpa using hx'
            simp [this]
  
theorem version_policy_witness :
    c2U.version = c2Pool.version + 1 ∧
    ∃ r1, findRide? c2S1.rides witRide.rid = some r1 ∧
      r1.version = witRide.version + 1 :=
  ⟨(version_policy.2.2.1 defaultConfig c2S c2Pool witRide c2S1 c2U rfl).1,
   (version_policy.2.2.1 defaultConfig c2S c2Pool witRide c2S1 c2U rfl).2 witRide rfl⟩

/-- C8: cancelling a ride whose status is already cancelled or completed
fails with the InvalidState error ('Cannot cancel ride in current status');
the embedding's error carries no state because the transaction aborts, so
the failed call mutates neither the ride nor any pool. -/
theorem idempotent_cancellation (now : ℤ) (s : DbState) (rid : Nat) (r : RideRec)
    (hr : findRide? s.rides rid = some r)
    (hst : r.status = .cancelled ∨ r.status = .completed) :
    cancelRide now s rid = .error .invalidState := by
  unfold cancelRide
  simp only [hr]
  rw [if_pos hst]

/-- A concrete already-cancelled ride. -/
def c8r : RideRec := ⟨3, (0, 0), (0, 0), 1, .cancelled, none, none, 2, some 0⟩

theorem idempotent_cancellation_witness :
    cancelRide 5 ⟨[], [c8r]⟩ 3 = .error .invalidState :=
  idempotent_cancellation 5 ⟨[], [c8r]⟩ 3 c8r rfl (Or.inl rfl)

/-- Modelled from the spec (section 4.3): the spread of a coordinate set is
the maximum distance from the set's centroid to any point of the set,
written as a fold of max over all the distances (0 for the empty set). The
code's calculateSpread short-circuits singleton sets instead; the two agree
whenever the distance function is reflexive-zero. -/
def specSpread (dist : Coord → Coord → ℚ) (cs : List Coord) : ℚ :=
  match calculateCentroid cs with
  | none => 0
  | some ctr => (cs.map (fun c => dist ctr c)).foldr max 0

theorem foldr_max_max (a b : ℚ) (l : List ℚ) :
    l.foldr max (max a b) = max a (l.foldr max b) := by
  induction l with
  | nil => rfl
  | cons c l ih =>
    rw [List.foldr_cons, List.foldr_cons, ih, max_left_comm]

theorem foldl_if_max {α : Type} (g : α → ℚ) (l : List α) :
    ∀ m : ℚ, l.foldl (fun acc x => if g x > acc then g x else acc) m
      = (l.map g).foldr max m := by
  induction l with
  | nil =>
    intro m
    rfl
  | cons x l ih =>
    intro m
    rw [List.foldl_cons, List.map_cons, List.foldr_cons]
    have h1 : (if g x > m then g x else m) = max m (g x) := by
      by_cases h : g x > m
      · rw [if_pos h, max_eq_right (le_of_lt h)]
      · rw [if_neg h, max_eq_left (le_of_not_lt h)]
    rw [h1, ih (max m (g x)), max_comm m (g x), foldr_max_max]

theorem calculateCentroid_ne_nil (cs : List Coord) (hne : cs ≠ []) :
    ∃ ctr, calculateCentroid cs = some ctr := by
  unfold calculateCentroid
  rw [if_neg]
  · exact ⟨_, rfl⟩
  · simpa [List.length_eq_zero] using hne

/-- The code's spread agrees with the spec's max-from-centroid spread for
any distance function that is zero on equal points. -/
theorem spread_eq_specSpread (dist : Coord → Coord → ℚ) (hd0 : ∀ c, dist c c = 0)
    (cs : List Coord) : calculateSpread dist cs = specSpread dist cs := by
  unfold calculateSpread specSpread
  by_cases hlen : cs.length = 1
  · rw [if_pos hlen]
    obtain ⟨c, rfl⟩ := List.length_eq_one.mp hlen
    have hctr : calculateCentroid [c] = some c := by
      unfold calculateCentroid
      norm_num
    rw [hctr]
    simp [hd0]
  · rw [if_neg hlen]
    cases hctr : calculateCentroid cs with
    | none => rfl
    | some ctr => exact foldl_if_max (fun coord => dist ctr coord) cs 0

theorem foldr_max_mem (l : List ℚ) (hne : l ≠ []) (hnn : ∀ x ∈ l, 0 ≤ x) :
    (∀ x ∈ l, x ≤ l.foldr max 0) ∧ l.foldr max 0 ∈ l := by
  induction l with
  | nil => exact (hne rfl).elim
  | cons a l' ih =>
    constructor
    · intro x hx
      rw [List.foldr_cons]
      rcases List.mem_cons.mp hx with rfl | hx'
      · exact le_max_left _ _
      · by_cases hl' : l' = []
        · subst hl'
          cases hx'
        · exact le_trans
            ((ih hl' (fun y hy => hnn y (List.mem_cons_of_mem _ hy))).1 x hx')
            (le_max_right _ _)
    · rw [List.foldr_cons]
      by_cases hl' : l' = []
      · subst hl'
        have h0 : (0:ℚ) ≤ a := hnn a (by simp)
        rw [show ([] : List ℚ).foldr max 0 = 0 from rfl, max_eq_left h0]
        exact List.mem_cons_self _ _
      · obtain ⟨hb, hmem⟩ := ih hl' (fun y hy => hnn y (List.mem_cons_of_mem _ hy))
        rcases le_total a (l'.foldr max 0) with h | h
        · rw [max_eq_right h]
          exact List.mem_cons_of_mem _ hmem
        · rw [max_eq_left h]
          exact List.mem_cons_self _ _

/-- The spec spread of a nonempty set is attained: it is the maximum
distance from the centroid to a point of the set. -/
theorem specSpread_is_max (dist : Coord → Coord → ℚ) (hnn : ∀ a b, 0 ≤ dist a b)
    (cs : List Coord) (hne : cs ≠ []) :
    ∃ ctr, calculateCentroid cs = some ctr ∧
      (∀ c ∈ cs, dist ctr c ≤ specSpread dist cs) ∧
      ∃ c ∈ cs, specSpread dist cs = dist ctr c := by
  obtain ⟨ctr, hctr⟩ := calculateCentroid_ne_nil cs hne
  have hsp : specSpread dist cs = (cs.map (fun c => dist ctr c)).foldr max 0 := by
    unfold specSpread
    rw [hctr]
  obtain ⟨hb, hmem⟩ := foldr_max_mem (cs.map (fun c => dist ctr c))
    (by simpa using hne)
    (by
      intro x hx
      obtain ⟨c, _, rfl⟩ := List.mem_map.mp hx
      exact hnn ctr c)
  refine ⟨ctr, hctr, ?_, ?_⟩
  · intro c hc
    rw [hsp]
    exact hb _ (List.mem_map.mpr ⟨c, hc, rfl⟩)
  · obtain ⟨c, hc, hceq⟩ := List.mem_map.mp hmem
    exact ⟨c, hc, by rw [hsp, hceq]⟩

/-- C9: for any distance function that is zero on equal points and
nonnegative (as the haversine is), the detour estimate is the arithmetic
mean of the pickup spread and the dropoff spread, where each spread is the
maximum distance from the centroid of the member pickups (resp. dropoffs)
plus the new ride's point to any point of that set. -/
theorem detour_definition (dist : Coord → Coord → ℚ)
    (hd0 : ∀ c, dist c c = 0) (hnn : ∀ a b, 0 ≤ dist a b)
    (rides : List RideRec) (pool : PoolRec) (ride : RideRec) :
    calculatePoolDetour dist rides pool ride
      = (specSpread dist (detourPickups rides pool ride)
        + specSpread dist (detourDropoffs rides pool ride)) / 2 ∧
    (∃ ctr, calculateCentroid (detourPickups rides pool ride) = some ctr ∧
      (∀ c ∈ detourPickups rides pool ride,
        dist ctr c ≤ specSpread dist (detourPickups rides pool ride)) ∧
      ∃ c ∈ detourPickups rides pool ride,
        specSpread dist (detourPickups rides pool ride) = dist ctr c) ∧
    (∃ ctr, calculateCentroid (detourDropoffs rides pool ride) = some ctr ∧
      (∀ c ∈ detourDropoffs rides pool ride,
        dist ctr c ≤ specSpread dist (detourDropoffs rides pool ride)) ∧
      ∃ c ∈ detourDropoffs rides pool ride,
        specSpread dist (detourDropoffs rides pool ride) = dist ctr c) := by
  refine ⟨?_, ?_, ?_⟩
  · unfold calculatePoolDetour
    rw [spread_eq_specSpread dist hd0, spread_eq_specSpread dist hd0]
  · exact specSpread_is_max dist hnn _ (by simp [detourPickups])
  · exact specSpread_is_max dist hnn _ (by simp [detourDropoffs])

theorem detour_definition_witness :
    calculatePoolDetour distZero c2S.rides c2Pool witRide
      = (specSpread distZero (detourPickups c2S.rides c2Pool witRide)
        + specSpread distZero (detourDropoffs c2S.rides c2Pool witRide)) / 2 ∧
    (∃ ctr, calculateCentroid (detourPickups c2S.rides c2Pool witRide) = some ctr ∧
      (∀ c ∈ detourPickups c2S.rides c2Pool witRide,
        distZero ctr c ≤ specSpread distZero (detourPickups c2S.rides c2Pool witRide)) ∧
      ∃ c ∈ detourPickups c2S.rides c2Pool witRide,
        specSpread distZero (detourPickups c2S.rides c2Pool witRide) = distZero ctr c) ∧
    (∃ ctr, calculateCentroid (detourDropoffs c2S.rides c2Pool witRide) = some ctr ∧
      (∀ c ∈ detourDropoffs c2S.rides c2Pool witRide,
        distZero ctr c ≤ specSpread distZero (detourDropoffs c2S.rides c2Pool witRide)) ∧
      ∃ c ∈ detourDropoffs c2S.rides c2Pool witRide,
        specSpread distZero (detourDropoffs c2S.rides c2Pool witRide) = distZero ctr c) :=
  detour_definition distZero (fun _ => rfl) (fun _ _ => le_refl 0)
    c2S.rides c2Pool witRide

/-- C10: calculateCentroid on the empty list is the NaN pair (none in the
embedding, arising from the 0/0 division) rather than an exception (the
function is total); every nonempty list yields a proper centroid; and the
core's call sites always supply nonempty coordinate lists — the detour
pickup and dropoff sets always contain the new ride's point, and the
geometry-refresh set is nonempty whenever some member ride resolves, which
is the case for the just-joined pool it is called on. -/
theorem empty_centroid_unreachable :
    calculateCentroid ([] : List Coord) = none ∧
    (∀ cs : List Coord, cs ≠ [] → (calculateCentroid cs).isSome = true) ∧
    (∀ (rides : List RideRec) (pool : PoolRec) (ride : RideRec),
      detourPickups rides pool ride ≠ [] ∧ detourDropoffs rides pool ride ≠ []) ∧
    (∀ (rides : List RideRec) (pool : PoolRec),
      (∃ rid ∈ pool.rides, (findRide? rides rid).isSome = true) →
      geometryCoordinates rides pool ≠ []) := by
  refine ⟨rfl, ?_, ?_, ?_⟩
  · intro cs hne
    obtain ⟨ctr, hctr⟩ := calculateCentroid_ne_nil cs hne
    rw [hctr]
    rfl
  · intro rides pool ride
    constructor
    · simp [detourPickups]
    · simp [detourDropoffs]
  · rintro rides pool ⟨rid, hmem, hsome⟩
    obtain ⟨r, hr⟩ := Option.isSome_iff_exists.mp hsome
    have hrmem : r ∈ memberRides rides pool := by
      unfold memberRides
      exact List.mem_filterMap.mpr ⟨rid, hmem, hr⟩
    have hpick : r.pickup ∈ geometryCoordinates rides pool := by
      unfold geometryCoordinates
      exact List.mem_flatMap.mpr ⟨r, hrmem, by simp⟩
    exact List.ne_nil_of_mem hpick

theorem empty_centroid_unreachable_witness :
    (calculateCentroid [((0 : ℚ), (0 : ℚ))]).isSome = true ∧
    geometryCoordinates c6S.rides c6Pool ≠ [] :=
  ⟨empty_centroid_unreachable.2.1 [(0, 0)] (by simp),
   empty_centroid_unreachable.2.2.2 c6S.rides c6Pool ⟨1, by simp [c6Pool], rfl⟩⟩

end AirportPool
